import Mathlib

/-!
Verification of the `sbytetrack` tracking engine (`sbytetrack/core.py`,
`sbytetrack/utils.py`) against its natural-language specification.

The Python source is shallowly embedded: scores and coordinates are exact
rationals (`ℚ`), Python lists become `List`, the mutable track objects of
`core.py` (shared by reference between the tracked / lost / removed
collections) become an explicit heap (`Heap`) of internal-id-keyed records,
with the collections holding internal ids, mirroring Python's reference
semantics.  Fallible code (`IdCounter.__init__`, the `KeyError` raised by
`BYTETrack._cls_group` on an out-of-range class id) returns `Except`.

The files `sbytetrack/matching.py`, `sbytetrack/kalman_filter.py` and
`sbytetrack/single_object_track.py` belong to the repository but are not in
the sources provided; the definitions for them below are modelled from the
specification text and say so in their doc comments.
-/

namespace SByteTrack

/-- The sentinel "no id" value of `sbytetrack/utils.py` (`IdCounter.NO_ID`). -/
def NO_ID : Int := -1

/-- `sbytetrack/utils.py`, `class IdCounter`: a monotonic id allocator with a
configurable start value.  `start_id` is validated at construction
(`raise ValueError` when `start_id <= NO_ID`); `curr_id` models the private
`_id` field. -/
structure IdCounter where
  start_id : Int
  curr_id : Int
deriving DecidableEq

/-- `IdCounter.__init__`: validates `start_id > NO_ID`, then `reset()`s, so the
current id starts at `start_id`. -/
def IdCounter.make (start_id : Int) : Except String IdCounter :=
  if start_id ≤ NO_ID then .error "start_id must be greater than -1"
  else .ok ⟨start_id, start_id⟩

/-- `IdCounter.reset`: sets the current id back to `start_id`. -/
def IdCounter.reset (c : IdCounter) : IdCounter :=
  { c with curr_id := c.start_id }

/-- `IdCounter.new_id`: returns the current id and post-increments it. -/
def IdCounter.new_id (c : IdCounter) : Int × IdCounter :=
  (c.curr_id, { c with curr_id := c.curr_id + 1 })

/-- An axis-aligned box in `(x_min, y_min, x_max, y_max)` form. -/
structure Box where
  x1 : ℚ
  y1 : ℚ
  x2 : ℚ
  y2 : ℚ
deriving DecidableEq

/-- `sbytetrack/utils.py`, `box_iou_batch`'s inner `box_area`:
`(box[2] - box[0]) * (box[3] - box[1])`. -/
def box_area (b : Box) : ℚ := (b.x2 - b.x1) * (b.y2 - b.y1)

/-- The intersection area of one pair of boxes, as computed (entrywise) by
`box_iou_batch`: componentwise `clip(bottom_right - top_left, 0, None)`, then
the product of the two clipped extents. -/
def interArea (bt bd : Box) : ℚ :=
  max 0 (min bt.x2 bd.x2 - max bt.x1 bd.x1) * max 0 (min bt.y2 bd.y2 - max bt.y1 bd.y1)

/-- One entry of `box_iou_batch`:
`area_inter / (area_true + area_detection - area_inter)`.
In this exact-rational embedding `q / 0 = 0`, which coincides with the
`np.nan_to_num` coercion of the float code for the `0/0` (NaN) case; the
`x/0` with `x ≠ 0` (infinity) case never arises because a positive
intersection forces a positive denominator (proved in `interArea_pos_denom`
below). -/
def iouPair (bt bd : Box) : ℚ :=
  interArea bt bd / (box_area bt + box_area bd - interArea bt bd)

/-- `sbytetrack/utils.py`, `box_iou_batch`: the `N×M` matrix of pairwise IoU
values (rows: `boxes_true`, columns: `boxes_detection`). -/
def box_iou_batch (boxes_true boxes_detection : List Box) : List (List ℚ) :=
  boxes_true.map (fun bt => boxes_detection.map (fun bd => iouPair bt bd))

/-- A detection row of the `tensors` array handed to `update_with_tensors`:
four box coordinates plus a confidence score. -/
structure Det where
  box : Box
  score : ℚ
deriving DecidableEq

/-- `sbytetrack/core.py`, `update_with_tensors` line `remain_inds = scores >
self.track_activation_threshold`: the high-confidence detections (strict `>`),
in input order (boolean-mask indexing preserves order). -/
def highDets (tat : ℚ) (tensors : List Det) : List Det :=
  tensors.filter (fun d => decide (tat < d.score))

/-- `sbytetrack/core.py`, `update_with_tensors` lines
`inds_low = scores > 0.1`, `inds_high = scores < self.track_activation_threshold`,
`inds_second = np.logical_and(inds_low, inds_high)`: the low-confidence bucket,
`0.1 < score < threshold` with both comparisons strict. -/
def secondDets (tat : ℚ) (tensors : List Det) : List Det :=
  tensors.filter (fun d => decide (1/10 < d.score) && decide (d.score < tat))

/-- `sbytetrack/core.py`, `BYTETrack.__init__` line
`self.max_time_lost = int(frame_rate / 30.0 * lost_track_buffer)`:
Python `int()` truncates toward zero; for the non-negative operands admitted
by the spec this is the floor.  The float expression is embedded exactly over
`ℚ`. -/
def maxTimeLostOf (frame_rate lost_track_buffer : ℕ) : ℤ :=
  Int.floor ((frame_rate : ℚ) / 30 * lost_track_buffer)

/-- Modelled from the spec: the track lifecycle states of
`sbytetrack/single_object_track.py` (`TrackState`), which is not among the
provided sources.  Spec §4.2: "States: New (just constructed, ...), Tracked,
Lost, Removed". -/
inductive TrackState where
  | New
  | Tracked
  | Lost
  | Removed
deriving DecidableEq

/-- Modelled from the spec: the track entity of
`sbytetrack/single_object_track.py` (`STrack`), which is not among the
provided sources.  Fields follow spec §3 "Track": internal and external ids
(sentinel `-1` until allocated), lifecycle state, `is_activated`, latest
score, geometry in top-left/width/height form plus a per-track
constant-velocity motion state (`vx, vy, vw, vh`), last-update frame, start
frame, the consecutive-match streak, and the configured
`minimum_consecutive_frames`. -/
structure STrack where
  internal_track_id : Int
  external_track_id : Int
  state : TrackState
  is_activated : Bool
  score : ℚ
  x : ℚ
  y : ℚ
  w : ℚ
  h : ℚ
  vx : ℚ
  vy : ℚ
  vw : ℚ
  vh : ℚ
  frame_id : ℕ
  start_frame : ℕ
  tracklet_len : ℕ
  min_consecutive : ℕ
deriving DecidableEq

/-- The last-observed box of a track in `(x_min, y_min, x_max, y_max)` form
(`STrack.tlbr`). -/
def STrack.tlbr (t : STrack) : Box :=
  ⟨t.x, t.y, t.x + t.w, t.y + t.h⟩

/-- Modelled from the spec: `STrack.__init__` via `STrack.tlbr_to_tlwh`
(spec §3 "Detection" / §4.2): a freshly constructed, not yet activated track
value holding the detection's geometry and score; both ids are the sentinel,
state is `New`, `is_activated` is false. -/
def mkDetTrack (minConsec : ℕ) (d : Det) : STrack :=
  { internal_track_id := NO_ID
    external_track_id := NO_ID
    state := .New
    is_activated := false
    score := d.score
    x := d.box.x1
    y := d.box.y1
    w := d.box.x2 - d.box.x1
    h := d.box.y2 - d.box.y1
    vx := 0, vy := 0, vw := 0, vh := 0
    frame_id := 0
    start_frame := 0
    tracklet_len := 0
    min_consecutive := minConsec }

/-- Modelled from the spec: the per-track step of `STrack.multi_predict`
(spec §4.2 / §4.3 `predict`): advance the geometry one frame under the
constant-velocity model; for a track that is not currently `Tracked` the
velocity terms are zeroed defensively before use, as §4.2 requires. -/
def STrack.predictOne (t : STrack) : STrack :=
  if t.state = .Tracked then
    { t with x := t.x + t.vx, y := t.y + t.vy, w := t.w + t.vw, h := t.h + t.vh }
  else
    { t with vx := 0, vy := 0, vw := 0, vh := 0 }

/-- Modelled from the spec: the motion-filter correction used by
`STrack.update` and `STrack.re_activate` (spec §4.3 `update`: "standard
linear Kalman correction").  `kalman_filter.py` is not among the provided
sources; the correction is modelled as its zero-measurement-noise (gain-one)
instance — the corrected geometry is the observed geometry, velocities are
kept.  No claim proved in this file depends on the gain. -/
def STrack.kfCorrect (t : STrack) (d : Det) : STrack :=
  { t with
    x := d.box.x1
    y := d.box.y1
    w := d.box.x2 - d.box.x1
    h := d.box.y2 - d.box.y1 }

/-- Modelled from the spec: `STrack.update` (spec §4.2): corrects the motion
filter with the new geometry, refreshes score and `frame_id`, increments the
consecutive-match streak, stays `Tracked`, and once the streak reaches
`minimum_consecutive_frames` flips `is_activated` and allocates the external
id if it has not been allocated yet (spec §3: assigned at most once). -/
def STrack.updateWith (t : STrack) (d : Det) (fid : ℕ) (extC : IdCounter) :
    STrack × IdCounter :=
  let t1 := { t.kfCorrect d with
              tracklet_len := t.tracklet_len + 1
              frame_id := fid
              score := d.score
              state := TrackState.Tracked }
  if t.tracklet_len + 1 = t.min_consecutive then
    if t.external_track_id = NO_ID then
      ({ t1 with is_activated := true, external_track_id := (extC.new_id).1 },
       (extC.new_id).2)
    else
      ({ t1 with is_activated := true }, extC)
  else
    (t1, extC)

/-- Modelled from the spec: `STrack.re_activate` (spec §4.2): Lost → Tracked;
corrects the motion filter, resets score/geometry and the streak, marks
`is_activated`, and — as §4.2 and §9 state for this repository — keeps the
same external id (recovered tracks are not renumbered). -/
def STrack.reActivate (t : STrack) (d : Det) (fid : ℕ) : STrack :=
  { t.kfCorrect d with
    tracklet_len := 0
    state := TrackState.Tracked
    is_activated := true
    frame_id := fid
    score := d.score }

/-- Modelled from the spec: `STrack.activate` (spec §4.2): New → Tracked;
allocates the internal id, initializes the motion filter from the detection
geometry with zero velocity, records the start frame, and allocates the
external id (flipping `is_activated`) only when
`minimum_consecutive_frames == 1`. -/
def STrack.activate (t : STrack) (fid : ℕ) (intC extC : IdCounter) :
    STrack × IdCounter × IdCounter :=
  let t1 := { t with
              internal_track_id := (intC.new_id).1
              tracklet_len := 0
              state := TrackState.Tracked
              frame_id := fid
              start_frame := fid
              vx := 0, vy := 0, vw := 0, vh := 0 }
  if t.min_consecutive = 1 then
    ({ t1 with is_activated := true, external_track_id := (extC.new_id).1 },
     (intC.new_id).2, (extC.new_id).2)
  else
    (t1, (intC.new_id).2, extC)

/-- The heap of live track objects, keyed by internal track id.  Python's
collections hold references to shared mutable `STrack` objects; the embedding
makes the object store explicit and lets the collections hold internal ids. -/
abbrev Heap := List (Int × STrack)

/-- A placeholder track returned by `findTrack` for an absent id; it is never
a member of any heap reached by the embedded code. -/
def dummyTrack : STrack := mkDetTrack 1 ⟨⟨0, 0, 0, 0⟩, 0⟩

/-- Dereference an internal id in the heap (first match). -/
def findTrack (h : Heap) (id : Int) : STrack :=
  match h.find? (fun p => p.1 = id) with
  | some p => p.2
  | none => dummyTrack

/-- Overwrite the record of an existing id; a no-op for an absent id
(mirrors mutating a Python object in place through a reference). -/
def setTrack (h : Heap) (id : Int) (t : STrack) : Heap :=
  h.map (fun p => if p.1 = id then (p.1, t) else p)

/-- Register a freshly activated track under its newly allocated id. -/
def insertTrack (h : Heap) (id : Int) (t : STrack) : Heap :=
  h ++ [(id, t)]

/-- Order-preserving de-duplication of an id list (first occurrence kept),
as performed by `joint_tracks`' `seen_track_ids` set and by the dict
comprehension in `sub_tracks` (`sbytetrack/core.py`). -/
def dedupIds (l : List Int) : List Int :=
  l.foldl (fun res id => if id ∈ res then res else res ++ [id]) []

/-- `sbytetrack/core.py`, `joint_tracks`: concatenates two track lists
dropping duplicate internal ids (first occurrence wins). -/
def jointTracks (a b : List Int) : List Int :=
  dedupIds (a ++ b)

/-- `sbytetrack/core.py`, `sub_tracks`: the tracks of `a` (first occurrence
per internal id) whose internal id does not occur in `b`. -/
def subTracks (a b : List Int) : List Int :=
  (dedupIds a).filter (fun id => decide (id ∉ b))

/-- Read entry `(i, j)` of a cost matrix; the default `1` is only consulted
for out-of-range indices, which the embedded callers never produce. -/
def entryD (m : List (List ℚ)) (i j : ℕ) : ℚ :=
  ((m.getD i []).getD j 1 : ℚ)

/-- Modelled from the spec: the candidate partial matchings enumerated to
solve the rectangular assignment problem of `matching.linear_assignment`
(`sbytetrack/matching.py` is not among the provided sources).  Spec §4.4:
any pair with cost `≥ threshold` is rejected outright, so only pairs with
cost `< thresh` are eligible; every row may also stay unmatched.  Rows appear
in each candidate in increasing order. -/
def candMatchings (cost : List (List ℚ)) (thresh : ℚ) :
    List ℕ → List ℕ → List (List (ℕ × ℕ))
  | [], _ => [[]]
  | r :: rs, cols =>
    candMatchings cost thresh rs cols ++
      (cols.filter (fun c => decide (entryD cost r c < thresh))).flatMap
        (fun c => (candMatchings cost thresh rs (cols.erase c)).map
          (fun m => (r, c) :: m))

/-- Modelled from the spec: the objective minimized by
`matching.linear_assignment` (spec §4.4, a cost-limited exact assignment):
total matched cost minus `thresh` per matched pair, i.e. matching a feasible
pair is always preferred to leaving it unmatched and the total cost is
globally minimal over the feasible subset. -/
def matchingValue (cost : List (List ℚ)) (thresh : ℚ) (m : List (ℕ × ℕ)) : ℚ :=
  (m.map (fun p => entryD cost p.1 p.2 - thresh)).sum

/-- Deterministic argmin over the candidate list (first minimum kept). -/
def pickBest (cost : List (List ℚ)) (thresh : ℚ) :
    List (List (ℕ × ℕ)) → List (ℕ × ℕ)
  | [] => []
  | c :: cs =>
    cs.foldl (fun best x =>
      if matchingValue cost thresh x < matchingValue cost thresh best then x
      else best) c

/-- Modelled from the spec: `matching.linear_assignment(cost, thresh)`
(spec §4.4): returns the accepted pairs plus the row and column indices not
present in any accepted pair (in increasing order, as `np.where` yields).
An empty cost matrix yields no matches and every index unmatched. -/
def linear_assignment (cost : List (List ℚ)) (nRows nCols : ℕ) (thresh : ℚ) :
    List (ℕ × ℕ) × List ℕ × List ℕ :=
  let best := pickBest cost thresh
    (candMatchings cost thresh (List.range nRows) (List.range nCols))
  (best,
   (List.range nRows).filter (fun i => decide (i ∉ best.map Prod.fst)),
   (List.range nCols).filter (fun j => decide (j ∉ best.map Prod.snd)))

/-- Pairwise `1 - IoU` cost between two box collections, the common core of
`matching.iou_distance` (spec §4.4: "an N×M cost matrix = 1 − IoU") and the
cost used by `remove_duplicate_tracks` and `single_cls_update`. -/
def iouDistBoxes (a b : List Box) : List (List ℚ) :=
  (box_iou_batch a b).map (fun row => row.map (fun v => 1 - v))

/-- Modelled from the spec: `matching.iou_distance(tracks, detections)`
(spec §4.4): cost matrix `1 - IoU` between the tracks' current `tlbr` boxes
and the detections' boxes. -/
def iou_distance (h : Heap) (trackIds : List Int) (dets : List Det) :
    List (List ℚ) :=
  iouDistBoxes (trackIds.map (fun id => (findTrack h id).tlbr))
    (dets.map (fun d => d.box))

/-- Modelled from the spec: `matching.fuse_score(cost_matrix, detections)`
(spec §4.4): per column `j`, the fused cost is
`1 - (1 - cost[i,j]) * detections[j].score`. -/
def fuse_score (cost : List (List ℚ)) (dets : List Det) : List (List ℚ) :=
  cost.map (fun row => (row.zip dets).map (fun p => 1 - (1 - p.1) * p.2.score))

/-- `sbytetrack/core.py`, `remove_duplicate_tracks`: every pair of one
tracked and one lost track with IoU cost `< 0.15` is a duplicate; the one
with the shorter active duration (`frame_id - start_frame`) is dropped from
its list, ties dropping the tracked side.  Pairs are visited in `np.where`'s
row-major order. -/
def remove_duplicate_tracks (h : Heap) (ta tb : List Int) :
    List Int × List Int :=
  let dist := iouDistBoxes (ta.map (fun id => (findTrack h id).tlbr))
    (tb.map (fun id => (findTrack h id).tlbr))
  let pairs := (List.range ta.length).flatMap (fun i =>
    (List.range tb.length).filterMap (fun j =>
      if entryD dist i j < 3/20 then some (i, j) else none))
  let dups := pairs.foldl (fun (dup : List ℕ × List ℕ) p =>
    let tA := findTrack h (ta.getD p.1 NO_ID)
    let tB := findTrack h (tb.getD p.2 NO_ID)
    let timeA : ℤ := (tA.frame_id : ℤ) - tA.start_frame
    let timeB : ℤ := (tB.frame_id : ℤ) - tB.start_frame
    if timeA > timeB then (dup.1, p.2 :: dup.2) else (p.1 :: dup.1, dup.2))
    ([], [])
  ((ta.enum.filter (fun p => decide (p.1 ∉ dups.1))).map Prod.snd,
   (tb.enum.filter (fun p => decide (p.1 ∉ dups.2))).map Prod.snd)

/-- A placeholder detection for out-of-range index defaults; the embedded
callers only index in range. -/
def dummyDet : Det := ⟨⟨0, 0, 0, 0⟩, 0⟩

/-- `sbytetrack/core.py`, `class BYTETrack` state (`__init__` fields).
`heap` is the explicit store of live track objects (Python holds them by
reference from the id lists). -/
structure BYTETrack where
  track_activation_threshold : ℚ
  minimum_matching_threshold : ℚ
  frame_id : ℕ
  det_thresh : ℚ
  max_time_lost : ℤ
  minimum_consecutive_frames : ℕ
  tracked_tracks : List Int
  lost_tracks : List Int
  removed_tracks : List Int
  internal_id_counter : IdCounter
  external_id_counter : IdCounter
  n_classes : Int
  cls2tracked_tracks : List (List Int)
  heap : Heap
deriving DecidableEq

/-- `BYTETrack.__init__`: records the thresholds, sets
`det_thresh = track_activation_threshold + 0.1` and
`max_time_lost = int(frame_rate / 30.0 * lost_track_buffer)`, builds the two
id counters (internal starting at 0, external at 1 — the only statements of
the constructor that can raise), and builds the per-class tracked-track table
`{i: [] for i in range(n_classes)}` (empty for `n_classes ≤ 0`, exactly as
Python's `range`).  No validation of `n_classes` is performed. -/
def BYTETrack.make (n_classes : Int) (track_activation_threshold : ℚ)
    (lost_track_buffer : ℕ) (minimum_matching_threshold : ℚ)
    (frame_rate : ℕ) (minimum_consecutive_frames : ℕ) :
    Except String BYTETrack := do
  let intC ← IdCounter.make 0
  let extC ← IdCounter.make 1
  .ok
    { track_activation_threshold := track_activation_threshold
      minimum_matching_threshold := minimum_matching_threshold
      frame_id := 0
      det_thresh := track_activation_threshold + 1/10
      max_time_lost := maxTimeLostOf frame_rate lost_track_buffer
      minimum_consecutive_frames := minimum_consecutive_frames
      tracked_tracks := []
      lost_tracks := []
      removed_tracks := []
      internal_id_counter := intC
      external_id_counter := extC
      n_classes := n_classes
      cls2tracked_tracks := List.replicate n_classes.toNat []
      heap := [] }

/-- `sbytetrack/core.py`, `BYTETrack.reset` (lines 187-192): resets the frame
counter and both id counters and clears `tracked_tracks`, `lost_tracks` and
`removed_tracks`.  It does not touch `cls2tracked_tracks` (and the Python
track objects themselves — the heap — persist). -/
def BYTETrack.reset (s : BYTETrack) : BYTETrack :=
  { s with
    frame_id := 0
    internal_id_counter := s.internal_id_counter.reset
    external_id_counter := s.external_id_counter.reset
    tracked_tracks := []
    lost_tracks := []
    removed_tracks := [] }

/-- The accumulator of the association loops of `update_with_tensors`:
the mutable heap, the external id allocator, and the `activated_starcks` /
`refind_stracks` lists. -/
structure AState where
  heap : Heap
  ext : IdCounter
  activated : List Int
  refind : List Int

/-- One iteration of the Step-2/Step-3 match loops of `update_with_tensors`
(`for itracked, idet in matches`): a `Tracked` track is `update`d and
appended to `activated_starcks`, any other state is `re_activate`d and
appended to `refind_stracks`. -/
def assocStep (pool : List Int) (dets : List Det) (fid : ℕ)
    (st : AState) (m : ℕ × ℕ) : AState :=
  let id := pool.getD m.1 NO_ID
  let d := dets.getD m.2 dummyDet
  let t := findTrack st.heap id
  if t.state = TrackState.Tracked then
    let (t', ext') := t.updateWith d fid st.ext
    { st with heap := setTrack st.heap id t', ext := ext',
              activated := st.activated ++ [id] }
  else
    { st with heap := setTrack st.heap id (t.reActivate d fid),
              refind := st.refind ++ [id] }

/-- One iteration of the unconfirmed-reconciliation match loop
(`unconfirmed[itracked].update(...)`; always `update`, always appended to
`activated_starcks`). -/
def unconfStep (unconfirmed : List Int) (dets : List Det) (fid : ℕ)
    (st : AState) (m : ℕ × ℕ) : AState :=
  let id := unconfirmed.getD m.1 NO_ID
  let d := dets.getD m.2 dummyDet
  let (t', ext') := (findTrack st.heap id).updateWith d fid st.ext
  { st with heap := setTrack st.heap id t', ext := ext',
            activated := st.activated ++ [id] }

/-- `STrack.multi_predict` over the association pool: each pool track's
motion state advances one frame (see `STrack.predictOne`). -/
def multiPredict (h : Heap) (pool : List Int) : Heap :=
  pool.foldl (fun h id => setTrack h id ((findTrack h id).predictOne)) h

/-- The `for it in u_track` loop after the second association: an unmatched
track that is not already `Lost` is marked `Lost` and appended to
`lost_stracks`. -/
def markLostStep (rTracked : List Int) (acc : Heap × List Int) (it : ℕ) :
    Heap × List Int :=
  let id := rTracked.getD it NO_ID
  let t := findTrack acc.1 id
  if t.state ≠ TrackState.Lost then
    (setTrack acc.1 id { t with state := TrackState.Lost }, acc.2 ++ [id])
  else acc

/-- The `for it in u_unconfirmed` loop: every unconfirmed track unmatched in
the reconciliation step is marked `Removed` and appended to
`removed_stracks`. -/
def markRemovedStep (unconfirmed : List Int) (acc : Heap × List Int)
    (it : ℕ) : Heap × List Int :=
  let id := unconfirmed.getD it NO_ID
  let t := findTrack acc.1 id
  (setTrack acc.1 id { t with state := TrackState.Removed }, acc.2 ++ [id])

/-- The accumulator of the Step-4 birth loop: heap, both id allocators, and
`activated_starcks`. -/
structure NState where
  heap : Heap
  intC : IdCounter
  extC : IdCounter
  activated : List Int

/-- One iteration of the Step-4 birth loop (`for inew in u_detection`): a
leftover high-confidence detection with `score < det_thresh` is skipped;
otherwise a new track is `activate`d and appended to `activated_starcks`. -/
def newTrackStep (dets : List Det) (detThresh : ℚ) (mcf fid : ℕ)
    (st : NState) (inew : ℕ) : NState :=
  let d := dets.getD inew dummyDet
  if d.score < detThresh then st
  else
    let (t', intC', extC') := (mkDetTrack mcf d).activate fid st.intC st.extC
    { heap := insertTrack st.heap t'.internal_track_id t'
      intC := intC'
      extC := extC'
      activated := st.activated ++ [t'.internal_track_id] }

/-- The Step-5 expiry loop (`for track in self.lost_tracks`): a lost track
with `frame_id - track.frame_id > max_time_lost` is marked `Removed` and
appended to `removed_stracks`.  The comparison is over `ℤ`, as in Python. -/
def expireStep (fid : ℕ) (mtl : ℤ) (acc : Heap × List Int) (id : Int) :
    Heap × List Int :=
  let t := findTrack acc.1 id
  if (fid : ℤ) - (t.frame_id : ℤ) > mtl then
    (setTrack acc.1 id { t with state := TrackState.Removed }, acc.2 ++ [id])
  else acc

/-- The partition of `self.tracked_tracks` into confirmed tracks
(`update_with_tensors` lines 240-247, the `is_activated` branch). -/
def confirmedOf (s : BYTETrack) : List Int :=
  s.tracked_tracks.filter (fun id => (findTrack s.heap id).is_activated)

/-- The association pool of `update_with_tensors` Step 2
(`strack_pool = joint_tracks(tracked_stracks, self.lost_tracks)`): the
confirmed tracks of the class being processed joined with the tracker's one
`lost_tracks` list (which is not partitioned by class). -/
def strackPoolOf (s : BYTETrack) : List Int :=
  jointTracks (confirmedOf s) s.lost_tracks

/-- `sbytetrack/core.py`, `BYTETrack.update_with_tensors` (lines 194-355),
embedded step for step.  Returns the updated tracker and `output_stracks`
(as internal ids into the updated heap). -/
@[noinline] def BYTETrack.updateWithTensors (s : BYTETrack) (tensors : List Det) :
    BYTETrack × List Int :=
  let fid := s.frame_id + 1
  let dets := highDets s.track_activation_threshold tensors
  let dets_second := secondDets s.track_activation_threshold tensors
  let unconfirmed := s.tracked_tracks.filter
    (fun id => !(findTrack s.heap id).is_activated)
  let strack_pool := strackPoolOf s
  let h0 := multiPredict s.heap strack_pool
  let distsA := fuse_score (iou_distance h0 strack_pool dets) dets
  let assignA := linear_assignment distsA strack_pool.length dets.length
    s.minimum_matching_threshold
  let stA := assignA.1.foldl (assocStep strack_pool dets fid)
    ⟨h0, s.external_id_counter, [], []⟩
  let r_tracked := (assignA.2.1.map (fun i => strack_pool.getD i NO_ID)).filter
    (fun id => decide ((findTrack stA.heap id).state = TrackState.Tracked))
  let distsB := iou_distance stA.heap r_tracked dets_second
  let assignB := linear_assignment distsB r_tracked.length dets_second.length
    (1/2)
  let stB := assignB.1.foldl (assocStep r_tracked dets_second fid) stA
  let lostFold := assignB.2.1.foldl (markLostStep r_tracked) (stB.heap, [])
  let detsC := assignA.2.2.map (fun i => dets.getD i dummyDet)
  let distsC := fuse_score (iou_distance lostFold.1 unconfirmed detsC) detsC
  let assignC := linear_assignment distsC unconfirmed.length detsC.length
    (7/10)
  let stC := assignC.1.foldl (unconfStep unconfirmed detsC fid)
    { stB with heap := lostFold.1 }
  let removedFold := assignC.2.1.foldl (markRemovedStep unconfirmed)
    (stC.heap, [])
  let stD := assignC.2.2.foldl
    (newTrackStep detsC s.det_thresh s.minimum_consecutive_frames fid)
    ⟨removedFold.1, s.internal_id_counter, stC.ext, stC.activated⟩
  let expireFold := s.lost_tracks.foldl (expireStep fid s.max_time_lost)
    (stD.heap, removedFold.2)
  let h3 := expireFold.1
  let tracked1 := s.tracked_tracks.filter
    (fun id => decide ((findTrack h3 id).state = TrackState.Tracked))
  let tracked3 := jointTracks (jointTracks tracked1 stD.activated) stC.refind
  let lost3 := subTracks (subTracks s.lost_tracks tracked3 ++ lostFold.2)
    s.removed_tracks
  let dedup := remove_duplicate_tracks h3 tracked3 lost3
  let output := dedup.1.filter (fun id => (findTrack h3 id).is_activated)
  ({ s with
     frame_id := fid
     heap := h3
     internal_id_counter := stD.intC
     external_id_counter := stD.extC
     tracked_tracks := dedup.1
     lost_tracks := dedup.2
     removed_tracks := expireFold.2 }, output)

/-!
Named views of the successive statements of `update_with_tensors`, used by
the invariant proofs below; `updateWithTensors_eq_slices` states that the
function equals their assembly (definitionally).
-/

/-- The frame id used throughout one `update_with_tensors` call. -/
def uwtFid (s : BYTETrack) : ℕ := s.frame_id + 1

/-- The high-confidence detections of the call. -/
def uwtDets (s : BYTETrack) (tensors : List Det) : List Det :=
  highDets s.track_activation_threshold tensors

/-- The low-confidence detections of the call. -/
def uwtDetsSecond (s : BYTETrack) (tensors : List Det) : List Det :=
  secondDets s.track_activation_threshold tensors

/-- The unconfirmed (`not is_activated`) part of the loaded tracked list. -/
def uwtUnconfirmed (s : BYTETrack) : List Int :=
  s.tracked_tracks.filter (fun id => !(findTrack s.heap id).is_activated)

/-- The heap after `multi_predict` over the association pool. -/
def uwtH0 (s : BYTETrack) : Heap :=
  multiPredict s.heap (strackPoolOf s)

/-- The first (high-confidence) assignment. -/
def uwtAssignA (s : BYTETrack) (tensors : List Det) :
    List (ℕ × ℕ) × List ℕ × List ℕ :=
  linear_assignment
    (fuse_score (iou_distance (uwtH0 s) (strackPoolOf s) (uwtDets s tensors))
      (uwtDets s tensors))
    (strackPoolOf s).length (uwtDets s tensors).length
    s.minimum_matching_threshold

/-- The association state after the first match loop. -/
def uwtStA (s : BYTETrack) (tensors : List Det) : AState :=
  (uwtAssignA s tensors).1.foldl
    (assocStep (strackPoolOf s) (uwtDets s tensors) (uwtFid s))
    ⟨uwtH0 s, s.external_id_counter, [], []⟩

/-- `r_tracked_stracks`: stage-A-unmatched pool tracks still `Tracked`. -/
def uwtRTracked (s : BYTETrack) (tensors : List Det) : List Int :=
  ((uwtAssignA s tensors).2.1.map
    (fun i => (strackPoolOf s).getD i NO_ID)).filter
    (fun id => decide
      ((findTrack (uwtStA s tensors).heap id).state = TrackState.Tracked))

/-- The second (low-confidence) assignment. -/
def uwtAssignB (s : BYTETrack) (tensors : List Det) :
    List (ℕ × ℕ) × List ℕ × List ℕ :=
  linear_assignment
    (iou_distance (uwtStA s tensors).heap (uwtRTracked s tensors)
      (uwtDetsSecond s tensors))
    (uwtRTracked s tensors).length (uwtDetsSecond s tensors).length (1/2)

/-- The association state after the second match loop. -/
def uwtStB (s : BYTETrack) (tensors : List Det) : AState :=
  (uwtAssignB s tensors).1.foldl
    (assocStep (uwtRTracked s tensors) (uwtDetsSecond s tensors) (uwtFid s))
    (uwtStA s tensors)

/-- Heap and `lost_stracks` after the mark-Lost loop. -/
def uwtLostFold (s : BYTETrack) (tensors : List Det) : Heap × List Int :=
  (uwtAssignB s tensors).2.1.foldl
    (markLostStep (uwtRTracked s tensors)) ((uwtStB s tensors).heap, [])

/-- The stage-A-unmatched high-confidence detections handed to the
unconfirmed-reconciliation step. -/
def uwtDetsC (s : BYTETrack) (tensors : List Det) : List Det :=
  (uwtAssignA s tensors).2.2.map
    (fun i => (uwtDets s tensors).getD i dummyDet)

/-- The unconfirmed-reconciliation assignment. -/
def uwtAssignC (s : BYTETrack) (tensors : List Det) :
    List (ℕ × ℕ) × List ℕ × List ℕ :=
  linear_assignment
    (fuse_score (iou_distance (uwtLostFold s tensors).1 (uwtUnconfirmed s)
      (uwtDetsC s tensors)) (uwtDetsC s tensors))
    (uwtUnconfirmed s).length (uwtDetsC s tensors).length (7/10)

/-- The association state after the unconfirmed match loop. -/
def uwtStC (s : BYTETrack) (tensors : List Det) : AState :=
  (uwtAssignC s tensors).1.foldl
    (unconfStep (uwtUnconfirmed s) (uwtDetsC s tensors) (uwtFid s))
    { uwtStB s tensors with heap := (uwtLostFold s tensors).1 }

/-- Heap and `removed_stracks` after removing unmatched unconfirmed
tracks. -/
def uwtRemovedFold (s : BYTETrack) (tensors : List Det) : Heap × List Int :=
  (uwtAssignC s tensors).2.1.foldl
    (markRemovedStep (uwtUnconfirmed s)) ((uwtStC s tensors).heap, [])

/-- The birth-loop state (Step 4). -/
def uwtStD (s : BYTETrack) (tensors : List Det) : NState :=
  (uwtAssignC s tensors).2.2.foldl
    (newTrackStep (uwtDetsC s tensors) s.det_thresh
      s.minimum_consecutive_frames (uwtFid s))
    ⟨(uwtRemovedFold s tensors).1, s.internal_id_counter,
      (uwtStC s tensors).ext, (uwtStC s tensors).activated⟩

/-- Heap and `removed_stracks` after the Step-5 expiry loop. -/
def uwtExpireFold (s : BYTETrack) (tensors : List Det) : Heap × List Int :=
  s.lost_tracks.foldl (expireStep (uwtFid s) s.max_time_lost)
    ((uwtStD s tensors).heap, (uwtRemovedFold s tensors).2)

/-- The final heap of the call. -/
def uwtH3 (s : BYTETrack) (tensors : List Det) : Heap :=
  (uwtExpireFold s tensors).1

/-- The rebuilt tracked list (Step 8, lines 341-345). -/
def uwtTracked3 (s : BYTETrack) (tensors : List Det) : List Int :=
  jointTracks
    (jointTracks
      (s.tracked_tracks.filter (fun id => decide
        ((findTrack (uwtH3 s tensors) id).state = TrackState.Tracked)))
      (uwtStD s tensors).activated)
    (uwtStC s tensors).refind

/-- The rebuilt lost list (Step 8, lines 346-348). -/
def uwtLost3 (s : BYTETrack) (tensors : List Det) : List Int :=
  subTracks
    (subTracks s.lost_tracks (uwtTracked3 s tensors)
      ++ (uwtLostFold s tensors).2)
    s.removed_tracks

/-- The deduplicated tracked and lost lists (Step 9). -/
def uwtDedup (s : BYTETrack) (tensors : List Det) : List Int × List Int :=
  remove_duplicate_tracks (uwtH3 s tensors) (uwtTracked3 s tensors)
    (uwtLost3 s tensors)

/-- The final id-scatter of `single_cls_update` (lines 168-173):
`track_id_array = np.full(n, -1)` overwritten at each matched detection index
with the matched track's external id. -/
def scatterIds (heap : Heap) (tracks : List Int)
    (ms : List (ℕ × ℕ)) (n : ℕ) : List Int :=
  ms.foldl (fun (a : List Int) m =>
      a.set m.1 ((findTrack heap (tracks.getD m.2 NO_ID)).external_track_id))
    (List.replicate n (-1 : Int))

/-- `sbytetrack/core.py`, `BYTETrack.single_cls_update`: early-returns an
empty array when either input is empty; otherwise stacks boxes and scores
into `tensors` (the callers always pass lists of equal length, as `np.hstack`
requires), runs `update_with_tensors`, and aligns each returned track to its
triggering detection by one more IoU assignment at threshold `0.5`,
producing one id (or `-1`) per input detection. -/
@[noinline] def BYTETrack.singleClsUpdate (s : BYTETrack) (boxes : List Box)
    (confs : List ℚ) : List Int × BYTETrack :=
  if boxes.length * confs.length = 0 then ([], s)
  else
    let tensors := (boxes.zip confs).map (fun p => Det.mk p.1 p.2)
    let res := s.updateWithTensors tensors
    let tracks := res.2
    if tracks.isEmpty then (List.replicate confs.length (-1 : Int), res.1)
    else
      let detBoxes := tensors.map (fun d => d.box)
      let trackBoxes := tracks.map (fun id => (findTrack res.1.heap id).tlbr)
      let costs := iouDistBoxes detBoxes trackBoxes
      let assign := linear_assignment costs detBoxes.length trackBoxes.length
        (1/2)
      (scatterIds res.1.heap tracks assign.1 confs.length, res.1)

/-- Python's `zip` over three parallel arrays: truncates to the shortest. -/
def zip3 {α β γ : Type} : List α → List β → List γ → List (α × β × γ)
  | a :: as, b :: bs, c :: cs => (a, b, c) :: zip3 as bs cs
  | _, _, _ => []

/-- `sbytetrack/core.py`, `BYTETrack._cls_group`, per class: the detections
of class `k` among the zipped rows, each with its original input position
(the enumeration order).  The Python loop appends in input order, which is
this order-preserving filter. -/
def clsBucket (rows : List (Box × ℚ × Int)) (k : ℕ) : List (Box × ℚ × ℕ) :=
  (rows.enum.filter (fun p => decide (p.2.2.2 = (k : Int)))).map
    (fun p => (p.2.1, p.2.2.1, p.1))

/-- Whether `_cls_group` completes without a `KeyError`: every zipped row's
class id must be a key of `{0, ..., n_classes - 1}`. -/
def clsGroupOk (n : Int) (rows : List (Box × ℚ × Int)) : Bool :=
  rows.all (fun r => decide (0 ≤ r.2.2) && decide (r.2.2 < n))

/-- The class-loop body of `BYTETrack.update` (lines 118-132): an empty
bucket is skipped (`continue`); otherwise `self.tracked_tracks` is loaded
from the per-class table, the frame counter is restored to the value captured
before the loop, `single_cls_update` runs, and the per-class table is stored
back.  Ids and original positions are accumulated in class order. -/
@[noinline] def classStep (rows : List (Box × ℚ × Int)) (cur : ℕ)
    (acc : List Int × List ℕ × BYTETrack) (k : ℕ) :
    List Int × List ℕ × BYTETrack :=
  let g := clsBucket rows k
  if g.isEmpty then acc
  else
    let s1 := { acc.2.2 with
                tracked_tracks := acc.2.2.cls2tracked_tracks.getD k []
                frame_id := cur }
    let res := s1.singleClsUpdate (g.map (fun r => r.1))
      (g.map (fun r => r.2.1))
    let s3 := { res.2 with
                cls2tracked_tracks := res.2.cls2tracked_tracks.set k
                  res.2.tracked_tracks }
    (acc.1 ++ res.1, acc.2.1 ++ g.map (fun r => r.2.2), s3)

/-- `sbytetrack/core.py`, `BYTETrack.update` minus the final permutation:
zips the inputs (Python `zip` truncation), loops over the classes, and after
the loop sets the frame counter to its captured value plus one.  Returns the
concatenated per-class id array, the concatenated original positions
(`orig_order`), and the updated tracker. -/
@[noinline] def BYTETrack.updateCore (s : BYTETrack) (xs : List Box) (cs : List ℚ)
    (ks : List Int) : List Int × List ℕ × BYTETrack :=
  let rows := zip3 xs cs ks
  let cur := s.frame_id
  let res := (List.range s.n_classes.toNat).foldl (classStep rows cur)
    ([], [], s)
  (res.1, res.2.1, { res.2.2 with frame_id := cur + 1 })

/-- The final line of `BYTETrack.update`:
`track_id_array[np.argsort(orig_order)]` — sort the (position, id) pairs by
original position and keep the ids.  The positions are pairwise distinct, so
sort stability is irrelevant. -/
def argsortScatter (ids : List Int) (ord : List ℕ) : List Int :=
  ((ord.zip ids).insertionSort (fun a b => a.1 ≤ b.1)).map Prod.snd

/-- `sbytetrack/core.py`, `BYTETrack.update`: groups the detections by class
(raising `KeyError` — before any tracker-state mutation — when a zipped class
id is outside `[0, n_classes)`), runs the per-class loop, and returns the id
array permuted back into the caller's original detection order. -/
@[noinline] def BYTETrack.update (s : BYTETrack) (xs : List Box) (cs : List ℚ)
    (ks : List Int) : Except String (List Int × BYTETrack) :=
  if clsGroupOk s.n_classes (zip3 xs cs ks) then
    let res := s.updateCore xs cs ks
    .ok (argsortScatter res.1 res.2.1, res.2.2)
  else .error "KeyError"

/-- A syntactically valid tracker value used only as the (never consulted)
`getD` default when destructuring `BYTETrack.make`'s `Except`. -/
def junkTracker : BYTETrack :=
  { track_activation_threshold := 0
    minimum_matching_threshold := 0
    frame_id := 0
    det_thresh := 0
    max_time_lost := 0
    minimum_consecutive_frames := 0
    tracked_tracks := []
    lost_tracks := []
    removed_tracks := []
    internal_id_counter := ⟨0, 0⟩
    external_id_counter := ⟨1, 1⟩
    n_classes := 0
    cls2tracked_tracks := []
    heap := [] }

/-- A single-class tracker built with the documented default parameters. -/
def demoTracker1 : BYTETrack :=
  (BYTETrack.make 1 (1/4) 30 (4/5) 30 1).toOption.getD junkTracker

/-- A two-class tracker built with the documented default parameters. -/
def demoTracker2 : BYTETrack :=
  (BYTETrack.make 2 (1/4) 30 (4/5) 30 1).toOption.getD junkTracker

/-- A concrete detection box. -/
def boxA : Box := ⟨0, 0, 10, 10⟩

/-- A second detection box, disjoint from `boxA`. -/
def boxB : Box := ⟨100, 100, 110, 110⟩

/-- `demoTracker1` after one update carrying one class-0 detection at `boxA`
with score `0.9` (which creates a track and reports external id 1). -/
def demoS1 : BYTETrack :=
  ((demoTracker1.update [boxA] [9/10] [0]).toOption.map Prod.snd).getD
    junkTracker

/-- `demoTracker2` after one update carrying one class-0 detection at `boxA`
with score `0.9`. -/
def demoT1 : BYTETrack :=
  ((demoTracker2.update [boxA] [9/10] [0]).toOption.map Prod.snd).getD
    junkTracker

/-- `demoT1` after a second update carrying one class-0 detection at `boxB`
(far from `boxA`, so the first track goes `Lost` and a second track is
born). -/
def demoT2 : BYTETrack :=
  ((demoT1.update [boxB] [9/10] [0]).toOption.map Prod.snd).getD junkTracker

/-- The per-track portion of the external-id invariant: the external id is
either the unallocated sentinel or a value the external allocator has already
handed out (`1 ≤ id < bound`, `bound` being the allocator's next id), and an
activated track always has an allocated external id. -/
def GoodT (bound : Int) (t : STrack) : Prop :=
  (t.external_track_id = NO_ID
    ∨ (1 ≤ t.external_track_id ∧ t.external_track_id < bound))
  ∧ (t.is_activated = true → t.external_track_id ≠ NO_ID)

/-- Every live track object satisfies `GoodT`. -/
def HeapGood (bound : Int) (h : Heap) : Prop :=
  ∀ p ∈ h, GoodT bound p.2

/-- The tracker-level invariant behind claim C10: the external allocator has
moved past its start value 1, every track object is `GoodT`, and every track
in the shared lost list has been activated (so re-activation never resurrects
a track without an allocated external id). -/
def TrackerInv (s : BYTETrack) : Prop :=
  1 ≤ s.external_id_counter.curr_id
  ∧ HeapGood s.external_id_counter.curr_id s.heap
  ∧ ∀ id ∈ s.lost_tracks, (findTrack s.heap id).is_activated = true

/-- The tracker states reachable from a fresh construction through successful
`update` calls. -/
inductive Reachable : BYTETrack → Prop where
  | made (n : Int) (tat : ℚ) (ltb : ℕ) (mmt : ℚ) (fr : ℕ) (mcf : ℕ)
      (s : BYTETrack) :
      BYTETrack.make n tat ltb mmt fr mcf = .ok s → Reachable s
  | step (s : BYTETrack) (xs : List Box) (cs : List ℚ) (ks : List Int)
      (r : List Int) (s' : BYTETrack) :
      Reachable s → s.update xs cs ks = .ok (r, s') → Reachable s'

/-!
Theorems.  Each claim of the specification review is settled by exactly one
theorem below (plus a witness where the theorem carries hypotheses).  The
lemmas not named after a claim are shared infrastructure.
-/

theorem find?_setTrack (h : Heap) (id id' : Int) (t : STrack) :
    (setTrack h id t).find? (fun p => decide (p.1 = id'))
      = (h.find? (fun p => decide (p.1 = id'))).map
          (fun p => if p.1 = id then (p.1, t) else p) := by
  unfold setTrack
  rw [List.find?_map]
  have hfun : ((fun p => decide (p.1 = id')) ∘
        (fun p : Int × STrack => if p.1 = id then (p.1, t) else p))
      = fun p : Int × STrack => decide (p.1 = id') := by
    funext p
    by_cases hp : p.1 = id <;> simp [Function.comp, hp]
  rw [hfun]

theorem findTrack_setTrack_congr {β : Type} (h : Heap) (id id' : Int)
    (t : STrack) (f : STrack → β) (hf : f t = f (findTrack h id)) :
    f (findTrack (setTrack h id t) id') = f (findTrack h id') := by
  cases hfind : h.find? (fun p => decide (p.1 = id')) with
  | none =>
    unfold findTrack
    rw [find?_setTrack, hfind]
    simp
  | some p =>
    have hkey : p.1 = id' := by simpa using List.find?_some hfind
    have h2 : findTrack h id' = p.2 := by
      unfold findTrack
      rw [hfind]
    by_cases hid : p.1 = id
    · have hid' : id' = id := by rw [← hkey, hid]
      have h1 : findTrack (setTrack h id t) id' = t := by
        unfold findTrack
        rw [find?_setTrack, hfind]
        simp [hid]
      have h3 : findTrack h id = p.2 := hid' ▸ h2
      rw [h1, h2, hf, h3]
    · have h1 : findTrack (setTrack h id t) id' = p.2 := by
        unfold findTrack
        rw [find?_setTrack, hfind]
        simp [hid]
      rw [h1, h2]

theorem mem_foldl_dedup (l : List Int) :
    ∀ (acc : List Int) (x : Int),
      (x ∈ l.foldl (fun res id => if id ∈ res then res else res ++ [id]) acc)
        ↔ x ∈ acc ∨ x ∈ l := by
  induction l with
  | nil => intro acc x; simp
  | cons a l ih =>
    intro acc x
    simp only [List.foldl_cons]
    by_cases ha : a ∈ acc
    · rw [if_pos ha, ih]
      constructor
      · rintro (hx | hx)
        · exact Or.inl hx
        · exact Or.inr (List.mem_cons_of_mem a hx)
      · rintro (hx | hx)
        · exact Or.inl hx
        · rcases List.mem_cons.mp hx with hx | hx
          · exact Or.inl (hx ▸ ha)
          · exact Or.inr hx
    · rw [if_neg ha, ih]
      simp only [List.mem_append, List.mem_singleton, List.mem_cons]
      tauto

theorem mem_dedupIds (l : List Int) (x : Int) : x ∈ dedupIds l ↔ x ∈ l := by
  unfold dedupIds
  rw [mem_foldl_dedup]
  simp

theorem mem_jointTracks (a b : List Int) (x : Int) :
    x ∈ jointTracks a b ↔ x ∈ a ∨ x ∈ b := by
  unfold jointTracks
  rw [mem_dedupIds]
  exact List.mem_append

theorem expire_fold_removed (fid : ℕ) (mtl : ℤ) :
    ∀ (lost : List Int) (h : Heap) (acc : List Int),
      (lost.foldl (expireStep fid mtl) (h, acc)).2
        = acc ++ lost.filter
            (fun id => decide (mtl < (fid : ℤ) - ((findTrack h id).frame_id : ℤ))) := by
  intro lost
  induction lost with
  | nil => intro h acc; simp
  | cons id rest ih =>
    intro h acc
    simp only [List.foldl_cons, List.filter_cons]
    by_cases hc : mtl < (fid : ℤ) - ((findTrack h id).frame_id : ℤ)
    · have hstep : expireStep fid mtl (h, acc) id
          = (setTrack h id { findTrack h id with state := TrackState.Removed },
             acc ++ [id]) := by
        unfold expireStep
        rw [if_pos hc]
      rw [hstep, ih]
      have hsame : ∀ id' : Int,
          (findTrack (setTrack h id
            { findTrack h id with state := TrackState.Removed }) id').frame_id
          = (findTrack h id').frame_id := by
        intro id'
        exact findTrack_setTrack_congr h id id' _ STrack.frame_id rfl
      have hfilter : rest.filter (fun id' => decide (mtl < (fid : ℤ) -
            ((findTrack (setTrack h id
              { findTrack h id with state := TrackState.Removed }) id').frame_id : ℤ)))
          = rest.filter (fun id' => decide (mtl < (fid : ℤ) -
            ((findTrack h id').frame_id : ℤ))) := by
        apply List.filter_congr
        intro id' _
        rw [hsame id']
      rw [hfilter, if_pos (by simpa using hc)]
      simp
    · have hstep : expireStep fid mtl (h, acc) id = (h, acc) := by
        unfold expireStep
        rw [if_neg hc]
      rw [hstep, ih, if_neg (by simpa using hc)]

/-- C1: the claim says that after `reset()` the tracker state equals a fresh
tracker's state, with every tracked collection — including the per-class
tracked-track partition consulted by the next `update` — empty, so that no
post-reset update can associate a detection with a pre-reset track.  The code
violates this: `reset` never clears `cls2tracked_tracks`.  Concretely, after
one update that created a track (internal id 0, external id 1) and a
`reset()`, the per-class partition still holds `[0]` (a fresh tracker holds
`[[]]`), and the next update with the same detection reports external id 1
again while the internal id allocator still stands at its reset value 0 —
no new track was allocated, so the reported id is the pre-reset track's. -/
theorem c1_reset_keeps_cls2tracked_tracks :
    demoS1.reset.cls2tracked_tracks = [[0]]
    ∧ demoTracker1.cls2tracked_tracks = [[]]
    ∧ demoS1.reset.internal_id_counter.curr_id = 0
    ∧ ((demoS1.reset.update [boxA] [9/10] [0]).toOption.map Prod.fst).getD []
        = [1]
    ∧ ((demoS1.reset.update [boxA] [9/10] [0]).toOption.map
        (fun p => p.2.internal_id_counter.curr_id)).getD 99 = 0 := by
  with_unfolding_all decide

/-- C2 (counterexample): the claim says the association pool used for each
class contains only tracks of that same class.  In the code the lost list is
shared across classes: after two updates whose detections are all of class 0
(the second far from the first, so the first track — internal id 0, reported
external id 1 — is `Lost`), the pool computed for class 1 is `[0]`, and a
third update carrying only a class-1 detection at the lost track's position
reports that class-0 track's external id 1. -/
theorem c2_cross_class_pool :
    ((demoTracker2.update [boxA] [9/10] [0]).toOption.map Prod.fst).getD []
      = [1]
    ∧ demoT2.lost_tracks = [0]
    ∧ demoT2.cls2tracked_tracks = [[1], []]
    ∧ strackPoolOf
        { demoT2 with tracked_tracks := demoT2.cls2tracked_tracks.getD 1 [] }
        = [0]
    ∧ ((demoT2.update [boxA] [9/10] [1]).toOption.map Prod.fst).getD []
        = [1] := by
  with_unfolding_all decide

/-- C3 (counterexample): the claim says a detection with score exactly equal
to `track_activation_threshold` lands in the low-confidence bucket and that
only detections with score `≤ 0.1` are discarded.  In the code both bucket
comparisons are strict, so a detection with score exactly `0.25` at threshold
`0.25` (and `0.25 > 0.1`) falls in neither bucket — it is discarded. -/
theorem c3_boundary_detection_discarded :
    highDets (1/4) [⟨boxA, 1/4⟩] = []
    ∧ secondDets (1/4) [⟨boxA, 1/4⟩] = []
    ∧ (1/10 : ℚ) < 1/4 := by
  with_unfolding_all decide

/-- C5 (counterexample): the claim says an update whose three input arrays do
not all have the same length fails with an error and applies no partial
update.  In the code `_cls_group` zips the arrays, silently truncating to the
shortest: a call with two boxes but one confidence and one class id succeeds,
returns `[1]`, advances the frame counter and creates a track. -/
theorem c5_length_mismatch_not_rejected :
    ((demoTracker1.update [boxA, boxB] [9/10] [0]).toOption.map Prod.fst).getD
      [] = [1]
    ∧ ((demoTracker1.update [boxA, boxB] [9/10] [0]).toOption.map
        (fun p => p.2.frame_id)).getD 99 = 1
    ∧ ((demoTracker1.update [boxA, boxB] [9/10] [0]).toOption.map
        (fun p => p.2.cls2tracked_tracks)).getD [] = [[0]] := by
  with_unfolding_all decide

/-- C6 (counterexample): the claim says the expiry window is
`round(lost_track_buffer × frame_rate / 30)`.  The code computes
`int(frame_rate / 30.0 * lost_track_buffer)`, which truncates: with
`frame_rate = 59` and `lost_track_buffer = 1` the code yields 1 while the
claim's formula yields `round(59/30) = 2`. -/
theorem c6_truncation_not_rounding :
    maxTimeLostOf 59 1 = 1
    ∧ round ((1 * 59 : ℚ) / 30) = 2
    ∧ (1 : ℤ) ≠ 2 := by
  refine ⟨?_, ?_, by decide⟩
  · show Int.floor ((59 : ℚ) / 30 * 1) = 1
    rw [Int.floor_eq_iff]
    norm_num
  · rw [round_eq, Int.floor_eq_iff]
    norm_num

/-- C9 (counterexample): the claim says constructing a tracker with
`n_classes < 1` fails at construction time.  `BYTETrack.__init__` performs no
validation of `n_classes`: construction with `n_classes = 0` succeeds. -/
theorem c9_zero_classes_constructs :
    (BYTETrack.make 0 (1/4) 30 (4/5) 30 1).toOption.isSome = true := by
  with_unfolding_all decide

/-- C2 (amended): the association pool built for the class being processed is
exactly the union of the confirmed tracks of that class (the `is_activated`
part of the tracked list loaded for the class) and the tracker's single
`lost_tracks` list, which is shared across all classes. -/
theorem c2_pool_is_confirmed_union_shared_lost (s : BYTETrack) (id : Int) :
    id ∈ strackPoolOf s ↔ id ∈ confirmedOf s ∨ id ∈ s.lost_tracks := by
  unfold strackPoolOf
  exact mem_jointTracks _ _ id

/-- C3 (amended): the high-confidence bucket is exactly
`score > track_activation_threshold` (strict), the low-confidence bucket is
exactly `0.1 < score < track_activation_threshold` (the upper comparison also
strict), and a detection is discarded before any association precisely when
`(score ≤ 0.1 and score ≤ threshold)` or `score = threshold`. -/
theorem c3_bucket_characterization (tat : ℚ) (tensors : List Det) (d : Det) :
    (d ∈ highDets tat tensors ↔ d ∈ tensors ∧ tat < d.score)
    ∧ (d ∈ secondDets tat tensors ↔
        d ∈ tensors ∧ 1/10 < d.score ∧ d.score < tat)
    ∧ ((d ∈ tensors ∧ d ∉ highDets tat tensors ∧ d ∉ secondDets tat tensors)
        ↔ d ∈ tensors ∧ ((d.score ≤ 1/10 ∧ d.score ≤ tat) ∨ d.score = tat)) := by
  have hhigh : d ∈ highDets tat tensors ↔ d ∈ tensors ∧ tat < d.score := by
    unfold highDets
    rw [List.mem_filter]
    simp
  have hsecond : d ∈ secondDets tat tensors ↔
      d ∈ tensors ∧ 1/10 < d.score ∧ d.score < tat := by
    unfold secondDets
    rw [List.mem_filter]
    simp
  refine ⟨hhigh, hsecond, ?_⟩
  rw [hhigh, hsecond]
  constructor
  · rintro ⟨hmem, hnh, hns⟩
    refine ⟨hmem, ?_⟩
    have h1 : ¬ tat < d.score := fun hlt => hnh ⟨hmem, hlt⟩
    have h2 : ¬ (1/10 < d.score ∧ d.score < tat) :=
      fun hin => hns ⟨hmem, hin⟩
    push_neg at h1 h2
    by_cases hlow : 1/10 < d.score
    · exact Or.inr (le_antisymm h1 (h2 hlow))
    · push_neg at hlow
      exact Or.inl ⟨hlow, h1⟩
  · rintro ⟨hmem, hcase⟩
    refine ⟨hmem, ?_, ?_⟩
    · rintro ⟨-, hlt⟩
      rcases hcase with ⟨-, hle⟩ | heq
      · exact absurd hlt (not_lt.mpr hle)
      · exact absurd hlt (heq ▸ lt_irrefl _)
    · rintro ⟨-, hgt, hlt⟩
      rcases hcase with ⟨hle, -⟩ | heq
      · exact absurd hgt (not_lt.mpr hle)
      · exact absurd hlt (heq ▸ lt_irrefl _)

/-- C6 (amended): the expiry window stored by the constructor is
`⌊frame_rate / 30 × lost_track_buffer⌋` (Python `int()` truncation of the
exact product, not rounding), and the Step-5 expiry loop marks a lost track
`Removed` exactly when `current_frame − frame_id` strictly exceeds that
value. -/
theorem c6_expiry_window :
    (∀ n tat ltb mmt fr mcf,
      ((BYTETrack.make n tat ltb mmt fr mcf).toOption.map
        (fun s => s.max_time_lost)).getD 0 = maxTimeLostOf fr ltb)
    ∧ (∀ fr ltb : ℕ,
        ((maxTimeLostOf fr ltb : ℚ) ≤ (fr : ℚ) / 30 * ltb
          ∧ (fr : ℚ) / 30 * ltb < maxTimeLostOf fr ltb + 1))
    ∧ ∀ (fid : ℕ) (mtl : ℤ) (lost : List Int) (h : Heap) (acc : List Int),
        (lost.foldl (expireStep fid mtl) (h, acc)).2
          = acc ++ lost.filter
              (fun id => decide
                (mtl < (fid : ℤ) - ((findTrack h id).frame_id : ℤ))) := by
  refine ⟨fun n tat ltb mmt fr mcf => rfl, fun fr ltb => ?_, ?_⟩
  · constructor
    · exact_mod_cast Int.floor_le ((fr : ℚ) / 30 * ltb)
    · exact_mod_cast Int.lt_floor_add_one ((fr : ℚ) / 30 * ltb)
  · intro fid mtl lost h acc
    exact expire_fold_removed fid mtl lost h acc

/-- C9 (amended): the identity allocator fails fast at construction exactly
when its start id is not strictly greater than the sentinel `-1`, with no
silent clamping; the tracker constructor, however, performs no validation of
`n_classes` — construction succeeds for every `n_classes`, including 0 and
negative values. -/
theorem c9_validators :
    (∀ sid : Int, (IdCounter.make sid).toOption.isSome = true ↔ NO_ID < sid)
    ∧ ∀ n tat ltb mmt fr mcf,
        (BYTETrack.make n tat ltb mmt fr mcf).toOption.isSome = true := by
  constructor
  · intro sid
    unfold IdCounter.make
    by_cases hs : sid ≤ NO_ID
    · rw [if_pos hs]
      simpa [Except.toOption] using not_lt.mpr hs
    · rw [if_neg hs]
      simpa [Except.toOption] using not_le.mp hs
  · intro n tat ltb mmt fr mcf
    rfl

theorem clsGroupOk_iff (n : Int) (rows : List (Box × ℚ × Int)) :
    clsGroupOk n rows = true ↔ ∀ r ∈ rows, 0 ≤ r.2.2 ∧ r.2.2 < n := by
  unfold clsGroupOk
  rw [List.all_eq_true]
  constructor
  · intro h r hr
    simpa using h r hr
  · intro h r hr
    simpa using h r hr

/-- C5 (amended): an update call completes without an error precisely when
every class id among the element-wise zipped common prefix of the three input
arrays lies in `[0, n_classes)`; in particular arrays of unequal length do
not by themselves fail the call (`zip` silently truncates), and the
`KeyError` raised for an out-of-range class id aborts the call before any
tracker-state mutation, so a failed call applies no partial update. -/
theorem c5_error_characterization (s : BYTETrack) (xs : List Box)
    (cs : List ℚ) (ks : List Int) :
    (s.update xs cs ks).toOption.isSome = true
      ↔ ∀ r ∈ zip3 xs cs ks, 0 ≤ r.2.2 ∧ r.2.2 < s.n_classes := by
  unfold BYTETrack.update
  by_cases hv : clsGroupOk s.n_classes (zip3 xs cs ks)
  · rw [if_pos hv]
    exact iff_of_true rfl ((clsGroupOk_iff _ _).mp hv)
  · rw [if_neg hv]
    constructor
    · intro hfalse
      exact absurd hfalse (by simp [Except.toOption])
    · intro h
      exact absurd ((clsGroupOk_iff _ _).mpr h) hv

theorem foldl_fixed_of (f : (List Int × List ℕ × BYTETrack) → ℕ →
      (List Int × List ℕ × BYTETrack)) (l : List ℕ)
    (s0 : List Int × List ℕ × BYTETrack) (hf : ∀ st a, f st a = st) :
    l.foldl f s0 = s0 := by
  induction l generalizing s0 with
  | nil => rfl
  | cons a l ih => rw [List.foldl_cons, hf, ih]

/-- C4: every successful update call advances the frame counter by exactly
one, no matter how many classes carried detections; and an update with empty
inputs returns the empty array and changes nothing but the frame counter. -/
theorem c4_frame_increment_and_empty_noop (s : BYTETrack) (xs : List Box)
    (cs : List ℚ) (ks : List Int) (r : List Int) (s' : BYTETrack)
    (hok : s.update xs cs ks = .ok (r, s')) :
    s'.frame_id = s.frame_id + 1
    ∧ (xs = [] → r = [] ∧ s' = { s with frame_id := s.frame_id + 1 }) := by
  unfold BYTETrack.update at hok
  by_cases hv : clsGroupOk s.n_classes (zip3 xs cs ks)
  · rw [if_pos hv] at hok
    injection hok with hpair
    have hr := congrArg Prod.fst hpair
    have hs' := congrArg Prod.snd hpair
    simp only at hr hs'
    constructor
    · rw [← hs']
      rfl
    · intro hxs
      subst hxs
      have hfold : (List.range s.n_classes.toNat).foldl
          (classStep (zip3 [] cs ks) s.frame_id) ([], [], s) = ([], [], s) :=
        foldl_fixed_of _ _ _ (fun st a => rfl)
      have hcore : s.updateCore [] cs ks
          = ([], [], { s with frame_id := s.frame_id + 1 }) := by
        unfold BYTETrack.updateCore
        simp only [hfold]
      rw [hcore] at hr hs'
      exact ⟨hr ▸ rfl, hs'.symm⟩
  · rw [if_neg hv] at hok
    exact absurd hok (by simp)

/-- `c4_frame_increment_and_empty_noop` applied at a concrete input: the
default single-class tracker, updated with empty arrays. -/
theorem c4_witness :
    ({ demoTracker1 with frame_id := 1 } : BYTETrack).frame_id
      = demoTracker1.frame_id + 1 :=
  (c4_frame_increment_and_empty_noop demoTracker1 [] [] [] []
    { demoTracker1 with frame_id := 1 } (by with_unfolding_all rfl)).1

theorem interArea_nonneg (b1 b2 : Box) : 0 ≤ interArea b1 b2 :=
  mul_nonneg (le_max_left 0 _) (le_max_left 0 _)

theorem interArea_le_areas (b1 b2 : Box) (hpos : 0 < interArea b1 b2) :
    interArea b1 b2 ≤ box_area b1 ∧ interArea b1 b2 ≤ box_area b2 := by
  have hw0 : (0 : ℚ) ≤ max 0 (min b1.x2 b2.x2 - max b1.x1 b2.x1) :=
    le_max_left _ _
  have hh0 : (0 : ℚ) ≤ max 0 (min b1.y2 b2.y2 - max b1.y1 b2.y1) :=
    le_max_left _ _
  have hwpos : 0 < max 0 (min b1.x2 b2.x2 - max b1.x1 b2.x1) := by
    rcases hw0.lt_or_eq with h | h
    · exact h
    · exfalso
      unfold interArea at hpos
      rw [← h, zero_mul] at hpos
      exact lt_irrefl 0 hpos
  have hhpos : 0 < max 0 (min b1.y2 b2.y2 - max b1.y1 b2.y1) := by
    rcases hh0.lt_or_eq with h | h
    · exact h
    · exfalso
      unfold interArea at hpos
      rw [← h, mul_zero] at hpos
      exact lt_irrefl 0 hpos
  have hwa : 0 < min b1.x2 b2.x2 - max b1.x1 b2.x1 := by
    by_contra hle
    push_neg at hle
    rw [max_eq_left hle] at hwpos
    exact lt_irrefl 0 hwpos
  have hha : 0 < min b1.y2 b2.y2 - max b1.y1 b2.y1 := by
    by_contra hle
    push_neg at hle
    rw [max_eq_left hle] at hhpos
    exact lt_irrefl 0 hhpos
  have hwv : max 0 (min b1.x2 b2.x2 - max b1.x1 b2.x1)
      = min b1.x2 b2.x2 - max b1.x1 b2.x1 := max_eq_right hwa.le
  have hhv : max 0 (min b1.y2 b2.y2 - max b1.y1 b2.y1)
      = min b1.y2 b2.y2 - max b1.y1 b2.y1 := max_eq_right hha.le
  constructor
  · have hwle : min b1.x2 b2.x2 - max b1.x1 b2.x1 ≤ b1.x2 - b1.x1 :=
      sub_le_sub (min_le_left _ _) (le_max_left _ _)
    have hhle : min b1.y2 b2.y2 - max b1.y1 b2.y1 ≤ b1.y2 - b1.y1 :=
      sub_le_sub (min_le_left _ _) (le_max_left _ _)
    unfold interArea box_area
    rw [hwv, hhv]
    exact mul_le_mul hwle hhle hha.le (hwa.le.trans hwle)
  · have hwle : min b1.x2 b2.x2 - max b1.x1 b2.x1 ≤ b2.x2 - b2.x1 :=
      sub_le_sub (min_le_right _ _) (le_max_right _ _)
    have hhle : min b1.y2 b2.y2 - max b1.y1 b2.y1 ≤ b2.y2 - b2.y1 :=
      sub_le_sub (min_le_right _ _) (le_max_right _ _)
    unfold interArea box_area
    rw [hwv, hhv]
    exact mul_le_mul hwle hhle hha.le (hwa.le.trans hwle)

theorem iouPair_mem_unit (b1 b2 : Box) :
    0 ≤ iouPair b1 b2 ∧ iouPair b1 b2 ≤ 1 := by
  unfold iouPair
  rcases (interArea_nonneg b1 b2).lt_or_eq with hpos | heq
  · obtain ⟨h1, h2⟩ := interArea_le_areas b1 b2 hpos
    have hden : interArea b1 b2
        ≤ box_area b1 + box_area b2 - interArea b1 b2 := by linarith
    have hdenpos : 0 < box_area b1 + box_area b2 - interArea b1 b2 :=
      lt_of_lt_of_le hpos hden
    exact ⟨div_nonneg hpos.le hdenpos.le, (div_le_one hdenpos).mpr hden⟩
  · rw [← heq, zero_div]
    norm_num

/-- C7: the IoU evaluator returns an `N×M` matrix whose entries all lie in
`[0,1]`; it is total (no errors), and any degenerate pair whose denominator
is not positive — the pairs whose float IoU would be a division by zero —
yields exactly 0.  (In this exact embedding no NaN or infinity exists; the
float code's `np.nan_to_num` corresponds to the `0/0 ↦ 0` convention of
rational division, and a nonzero numerator with zero denominator is
impossible because a positive intersection forces a positive denominator, as
the entry bounds show.) -/
theorem c7_iou_matrix_safe (bt bd : List Box) :
    (box_iou_batch bt bd).length = bt.length
    ∧ (∀ row ∈ box_iou_batch bt bd, row.length = bd.length)
    ∧ (∀ row ∈ box_iou_batch bt bd, ∀ e ∈ row, 0 ≤ e ∧ e ≤ 1)
    ∧ ∀ b1 b2 : Box,
        box_area b1 + box_area b2 - interArea b1 b2 ≤ 0 →
          iouPair b1 b2 = 0 := by
  refine ⟨by simp [box_iou_batch], ?_, ?_, ?_⟩
  · intro row hrow
    unfold box_iou_batch at hrow
    obtain ⟨b, _, hb⟩ := List.mem_map.mp hrow
    rw [← hb]
    simp
  · intro row hrow e he
    unfold box_iou_batch at hrow
    obtain ⟨b, _, hb⟩ := List.mem_map.mp hrow
    rw [← hb] at he
    obtain ⟨b2, _, hb2⟩ := List.mem_map.mp he
    rw [← hb2]
    exact iouPair_mem_unit b b2
  · intro b1 b2 hden
    have hzero : interArea b1 b2 = 0 := by
      rcases (interArea_nonneg b1 b2).lt_or_eq with hpos | heq
      · obtain ⟨h1, h2⟩ := interArea_le_areas b1 b2 hpos
        exact absurd hden (by push_neg; linarith)
      · exact heq.symm
    unfold iouPair
    rw [hzero, zero_div]

/-- `c7_iou_matrix_safe` applied at a concrete input: two coincident
zero-area boxes, whose float IoU would be `0/0`. -/
theorem c7_witness : iouPair ⟨0, 0, 0, 0⟩ ⟨0, 0, 0, 0⟩ = 0 :=
  (c7_iou_matrix_safe [] []).2.2.2 ⟨0, 0, 0, 0⟩ ⟨0, 0, 0, 0⟩
    (by with_unfolding_all decide)

theorem scatterIds_length (heap : Heap) (tracks : List Int)
    (ms : List (ℕ × ℕ)) (n : ℕ) : (scatterIds heap tracks ms n).length = n := by
  unfold scatterIds
  suffices h : ∀ (ms : List (ℕ × ℕ)) (a : List Int),
      (ms.foldl (fun (a : List Int) m =>
        a.set m.1 ((findTrack heap (tracks.getD m.2 NO_ID)).external_track_id))
        a).length = a.length by
    rw [h]
    simp
  intro ms
  induction ms with
  | nil => intro a; rfl
  | cons m rest ih =>
    intro a
    rw [List.foldl_cons, ih, List.length_set]

theorem singleClsUpdate_length (s : BYTETrack) (boxes : List Box)
    (confs : List ℚ) (hne : ¬ boxes.length * confs.length = 0) :
    (s.singleClsUpdate boxes confs).1.length = confs.length := by
  unfold BYTETrack.singleClsUpdate
  rw [if_neg hne]
  by_cases hemp : (s.updateWithTensors
      ((boxes.zip confs).map (fun p => Det.mk p.1 p.2))).2.isEmpty
  · simp [hemp]
  · simp [hemp, scatterIds_length]

theorem zip3_length {α β γ : Type} :
    ∀ (a : List α) (b : List β) (c : List γ),
      (zip3 a b c).length = min a.length (min b.length c.length) := by
  intro a
  induction a with
  | nil => intro b c; simp [zip3]
  | cons x xs ih =>
    intro b c
    cases b with
    | nil => simp [zip3]
    | cons y ys =>
      cases c with
      | nil => simp [zip3]
      | cons z zs =>
        simp only [zip3, List.length_cons, ih]
        omega

theorem classes_fold_ord (rows : List (Box × ℚ × Int)) (cur : ℕ) :
    ∀ (l : List ℕ) (acc : List Int × List ℕ × BYTETrack),
      (l.foldl (classStep rows cur) acc).2.1
        = acc.2.1 ++ l.flatMap
            (fun k => (clsBucket rows k).map (fun r => r.2.2)) := by
  intro l
  induction l with
  | nil => intro acc; simp
  | cons k rest ih =>
    intro acc
    rw [List.foldl_cons, ih]
    by_cases hg : (clsBucket rows k).isEmpty
    · have hnil : clsBucket rows k = [] := List.isEmpty_iff.mp hg
      have hstep : classStep rows cur acc k = acc := by
        unfold classStep
        simp [hg]
      rw [hstep]
      simp [List.flatMap_cons, hnil]
    · have hstep : (classStep rows cur acc k).2.1
          = acc.2.1 ++ (clsBucket rows k).map (fun r => r.2.2) := by
        unfold classStep
        simp [hg]
      rw [hstep]
      simp [List.flatMap_cons, List.append_assoc]

theorem classes_fold_len (rows : List (Box × ℚ × Int)) (cur : ℕ) :
    ∀ (l : List ℕ) (acc : List Int × List ℕ × BYTETrack),
      acc.1.length = acc.2.1.length →
      (l.foldl (classStep rows cur) acc).1.length
        = (l.foldl (classStep rows cur) acc).2.1.length := by
  intro l
  induction l with
  | nil => intro acc h; simpa using h
  | cons k rest ih =>
    intro acc h
    rw [List.foldl_cons]
    apply ih
    by_cases hg : (clsBucket rows k).isEmpty
    · have hstep : classStep rows cur acc k = acc := by
        unfold classStep
        simp [hg]
      rw [hstep]
      exact h
    · have hglen : (clsBucket rows k).length ≠ 0 := by
        intro h0
        exact hg (List.isEmpty_iff.mpr (List.length_eq_zero.mp h0))
      have hres : ∀ s1 : BYTETrack,
          (s1.singleClsUpdate ((clsBucket rows k).map (fun r => r.1))
            ((clsBucket rows k).map (fun r => r.2.1))).1.length
          = (clsBucket rows k).length := by
        intro s1
        rw [singleClsUpdate_length]
        · simp
        · simp [hglen]
      have hstep : (classStep rows cur acc k).1.length
            = acc.1.length + (clsBucket rows k).length
          ∧ (classStep rows cur acc k).2.1.length
            = acc.2.1.length + (clsBucket rows k).length := by
        unfold classStep
        simp [hg, hres]
      rw [hstep.1, hstep.2, h]

theorem clsBucket_ord_map (rows : List (Box × ℚ × Int)) (k : ℕ) :
    (clsBucket rows k).map (fun r => r.2.2)
      = (rows.enum.filter (fun p => decide (p.2.2.2 = (k : Int)))).map
          Prod.fst := by
  unfold clsBucket
  rw [List.map_map]
  rfl

theorem bucket_fst_nodup (rows : List (Box × ℚ × Int)) (k : ℕ) :
    ((rows.enum.filter (fun p => decide (p.2.2.2 = (k : Int)))).map
      Prod.fst).Nodup := by
  have hsub : ((rows.enum.filter
        (fun p => decide (p.2.2.2 = (k : Int)))).map Prod.fst).Sublist
      (rows.enum.map Prod.fst) :=
    (List.filter_sublist _).map Prod.fst
  rw [List.enum_map_fst] at hsub
  exact List.Nodup.sublist hsub (List.nodup_range _)

theorem mem_bucket_fst (rows : List (Box × ℚ × Int)) (k : ℕ) (i : ℕ) :
    i ∈ (rows.enum.filter (fun p => decide (p.2.2.2 = (k : Int)))).map Prod.fst
      ↔ ∃ r, rows[i]? = some r ∧ r.2.2 = (k : Int) := by
  rw [List.mem_map]
  constructor
  · rintro ⟨p, hp, hfst⟩
    rw [List.mem_filter] at hp
    obtain ⟨hpe, hpk⟩ := hp
    rw [List.mem_enum_iff_getElem?] at hpe
    refine ⟨p.2, ?_, by simpa using hpk⟩
    rw [← hfst]
    exact hpe
  · rintro ⟨r, hget, hkey⟩
    refine ⟨(i, r), ?_, rfl⟩
    rw [List.mem_filter]
    constructor
    · rw [List.mem_enum_iff_getElem?]
      exact hget
    · simpa using hkey

theorem flat_buckets_perm (rows : List (Box × ℚ × Int)) (n : Int)
    (hval : ∀ r ∈ rows, 0 ≤ r.2.2 ∧ r.2.2 < n) :
    ((List.range n.toNat).flatMap (fun k =>
        (rows.enum.filter (fun p => decide (p.2.2.2 = (k : Int)))).map
          Prod.fst)).Perm
      (List.range rows.length) := by
  have hnodup : ((List.range n.toNat).flatMap (fun k =>
      (rows.enum.filter (fun p => decide (p.2.2.2 = (k : Int)))).map
        Prod.fst)).Nodup := by
    rw [List.nodup_flatMap]
    constructor
    · intro k _
      exact bucket_fst_nodup rows k
    · apply (List.nodup_range _).pairwise_of_forall_ne
      intro a _ b _ hne i hia hib
      rw [mem_bucket_fst] at hia hib
      obtain ⟨r, hr, hrk⟩ := hia
      obtain ⟨r2, hr2, hr2k⟩ := hib
      rw [hr] at hr2
      injection hr2 with hrr
      apply hne
      have : (a : Int) = (b : Int) := by rw [← hrk, hrr, hr2k]
      exact_mod_cast this
  rw [List.perm_ext_iff_of_nodup hnodup (List.nodup_range _)]
  intro i
  rw [List.mem_flatMap, List.mem_range]
  constructor
  · rintro ⟨k, _, hk⟩
    rw [mem_bucket_fst] at hk
    obtain ⟨r, hr, -⟩ := hk
    obtain ⟨hlt, -⟩ := List.getElem?_eq_some_iff.mp hr
    exact hlt
  · intro hi
    have hget : rows[i]? = some rows[i] := List.getElem?_eq_getElem hi
    obtain ⟨h0, h1⟩ := hval rows[i] (List.getElem_mem hi)
    refine ⟨rows[i].2.2.toNat, ?_, ?_⟩
    · rw [List.mem_range]
      omega
    · rw [mem_bucket_fst]
      exact ⟨rows[i], hget, by rw [Int.toNat_of_nonneg h0]⟩

theorem updateCore_ord (s : BYTETrack) (xs : List Box) (cs : List ℚ)
    (ks : List Int) :
    (s.updateCore xs cs ks).2.1
      = (List.range s.n_classes.toNat).flatMap
          (fun k => (clsBucket (zip3 xs cs ks) k).map (fun r => r.2.2)) := by
  have h := classes_fold_ord (zip3 xs cs ks) s.frame_id
    (List.range s.n_classes.toNat) ([], [], s)
  unfold BYTETrack.updateCore
  simp only [h]
  simp

theorem updateCore_len (s : BYTETrack) (xs : List Box) (cs : List ℚ)
    (ks : List Int) :
    (s.updateCore xs cs ks).1.length = (s.updateCore xs cs ks).2.1.length := by
  have h := classes_fold_len (zip3 xs cs ks) s.frame_id
    (List.range s.n_classes.toNat) ([], [], s) rfl
  unfold BYTETrack.updateCore
  simp only []
  exact h

theorem argsortScatter_length (ids : List Int) (ord : List ℕ)
    (hlen : ids.length = ord.length) :
    (argsortScatter ids ord).length = ord.length := by
  unfold argsortScatter
  rw [List.length_map, List.length_insertionSort, List.length_zip]
  omega

theorem argsortScatter_align (ids : List Int) (ord : List ℕ) (N : ℕ)
    (hlen : ids.length = ord.length) (hperm : ord.Perm (List.range N)) :
    ∀ j, j < ord.length →
      (argsortScatter ids ord).getD (ord.getD j 0) (-2) = ids.getD j (-2) := by
  intro j hj
  unfold argsortScatter
  have hordN : ord.length = N := by simpa using hperm.length_eq
  have hperm1 : ((ord.zip ids).insertionSort (fun a b => a.1 ≤ b.1)).Perm
      (ord.zip ids) := List.perm_insertionSort _ _
  have hsorted : List.Sorted (fun a b : ℕ × Int => a.1 ≤ b.1)
      ((ord.zip ids).insertionSort (fun a b => a.1 ≤ b.1)) :=
    @List.sorted_insertionSort _ _ _ ⟨fun a b => le_total a.1 b.1⟩
      ⟨fun _ _ _ hab hbc => le_trans hab hbc⟩ (ord.zip ids)
  have hplen : (ord.zip ids).length = ord.length := by
    rw [List.length_zip]
    omega
  have hslen : ((ord.zip ids).insertionSort (fun a b => a.1 ≤ b.1)).length
      = ord.length := by
    rw [hperm1.length_eq, hplen]
  have hmfst : ((ord.zip ids).insertionSort (fun a b => a.1 ≤ b.1)).map
      Prod.fst = List.range N := by
    have h1 : (((ord.zip ids).insertionSort (fun a b => a.1 ≤ b.1)).map
        Prod.fst).Perm ord := by
      have h2 := hperm1.map Prod.fst
      rwa [List.map_fst_zip ord ids (le_of_eq hlen.symm)] at h2
    exact List.eq_of_perm_of_sorted (h1.trans hperm)
      (List.pairwise_map.mpr hsorted) (List.sorted_le_range N)
  have hjid : j < ids.length := by omega
  have hjp : j < (ord.zip ids).length := by omega
  have hjo : j < ord.length := hj
  have hmem : (ord[j], ids[j]) ∈
      (ord.zip ids).insertionSort (fun a b => a.1 ≤ b.1) := by
    rw [hperm1.mem_iff, ← List.getElem_zip (h := hjp)]
    exact List.getElem_mem hjp
  obtain ⟨p, hp, hpeq⟩ := List.getElem_of_mem hmem
  have hpN : p < N := by omega
  have hpd : ((ord.zip ids).insertionSort (fun a b => a.1 ≤ b.1)).getD p
      (0, (-2 : Int)) = (ord[j], ids[j]) := by
    rw [List.getD_eq_getElem _ _ hp]
    exact hpeq
  have hfst : p = ord[j] := by
    have hpm : p < (((ord.zip ids).insertionSort
        (fun a b => a.1 ≤ b.1)).map Prod.fst).length := by
      rw [List.length_map]
      exact hp
    have h1 : (((ord.zip ids).insertionSort
          (fun a b => a.1 ≤ b.1)).map Prod.fst).getD p 0
        = (((ord.zip ids).insertionSort
          (fun a b => a.1 ≤ b.1)).getD p (0, (-2 : Int))).1 := by
      rw [List.getD_eq_getElem _ _ hpm, List.getD_eq_getElem _ _ hp]
      exact List.getElem_map Prod.fst
    rw [hmfst] at h1
    have h2 : (List.range N).getD p 0 = p := by
      have hpr : p < (List.range N).length := by simpa using hpN
      rw [List.getD_eq_getElem _ _ hpr]
      exact List.getElem_range p hpr
    rw [h2, hpd] at h1
    exact h1
  have hoj : ord[j] < ord.length := by
    have : ord[j] ∈ List.range N := hperm.mem_iff.mp (List.getElem_mem hjo)
    rw [List.mem_range] at this
    omega
  have hojm : ord[j] < (((ord.zip ids).insertionSort
      (fun a b => a.1 ≤ b.1)).map Prod.snd).length := by
    rw [List.length_map, hslen]
    exact hoj
  have hojs : ord[j] < ((ord.zip ids).insertionSort
      (fun a b => a.1 ≤ b.1)).length := by
    rw [hslen]
    exact hoj
  have hordj : ord.getD j 0 = ord[j] := List.getD_eq_getElem ord 0 hj
  have hidsj : ids.getD j (-2) = ids[j] := List.getD_eq_getElem ids (-2) hjid
  rw [hordj, hidsj, List.getD_eq_getElem _ _ hojm, List.getElem_map Prod.snd]
  rw [hfst] at hpd
  rw [List.getD_eq_getElem _ _ hojs] at hpd
  rw [hpd]

/-- C8: for every successful update call whose three inputs have equal
length `N`, the returned array has length `N`; the recorded original
positions (`orig_order`) are a permutation of `0, ..., N-1`, each input
position occurring exactly once across the per-class groups; and placing the
concatenated per-class id array through `np.argsort(orig_order)` restores
exact input alignment: the entry at output position `orig_order[j]` is the
`j`-th concatenated per-class id, for every `j`. -/
theorem c8_output_alignment (s : BYTETrack) (xs : List Box) (cs : List ℚ)
    (ks : List Int) (r : List Int) (s' : BYTETrack)
    (hcs : cs.length = xs.length) (hks : ks.length = xs.length)
    (hok : s.update xs cs ks = .ok (r, s')) :
    r.length = xs.length
    ∧ (s.updateCore xs cs ks).2.1.Perm (List.range xs.length)
    ∧ ∀ j, j < (s.updateCore xs cs ks).2.1.length →
        r.getD ((s.updateCore xs cs ks).2.1.getD j 0) (-2)
          = (s.updateCore xs cs ks).1.getD j (-2) := by
  unfold BYTETrack.update at hok
  by_cases hv : clsGroupOk s.n_classes (zip3 xs cs ks)
  · rw [if_pos hv] at hok
    injection hok with hpair
    have hr := congrArg Prod.fst hpair
    simp only at hr
    have hval := (clsGroupOk_iff _ _).mp hv
    have hrows : (zip3 xs cs ks).length = xs.length := by
      rw [zip3_length]
      omega
    have hperm : (s.updateCore xs cs ks).2.1.Perm (List.range xs.length) := by
      rw [updateCore_ord]
      have h := flat_buckets_perm (zip3 xs cs ks) s.n_classes hval
      rw [hrows] at h
      have hfun : (fun k : ℕ =>
            (clsBucket (zip3 xs cs ks) k).map (fun r => r.2.2))
          = fun k : ℕ => ((zip3 xs cs ks).enum.filter
              (fun p => decide (p.2.2.2 = (k : Int)))).map Prod.fst :=
        funext (clsBucket_ord_map (zip3 xs cs ks))
      rw [hfun]
      exact h
    refine ⟨?_, hperm, ?_⟩
    · rw [← hr, argsortScatter_length _ _ (updateCore_len s xs cs ks)]
      simpa using hperm.length_eq
    · intro j hj
      rw [← hr]
      exact argsortScatter_align _ _ xs.length (updateCore_len s xs cs ks)
        hperm j hj
  · rw [if_neg hv] at hok
    exact absurd hok (by simp)

/-- `c8_output_alignment` applied at a concrete input: the default
single-class tracker updated with one detection. -/
theorem c8_witness :
    (demoTracker1.updateCore [boxA] [9/10] [0]).2.1.Perm (List.range 1) := by
  have hok : demoTracker1.update [boxA] [9/10] [0] = .ok ([1], demoS1) := by
    with_unfolding_all rfl
  exact (c8_output_alignment demoTracker1 [boxA] [9/10] [0] [1] demoS1
    rfl rfl hok).2.1

theorem GoodT_mono (b b' : Int) (t : STrack) (hbb : b ≤ b')
    (hg : GoodT b t) : GoodT b' t := by
  obtain ⟨h1, h2⟩ := hg
  refine ⟨?_, h2⟩
  rcases h1 with h | ⟨ha, hb⟩
  · exact Or.inl h
  · exact Or.inr ⟨ha, lt_of_lt_of_le hb hbb⟩

theorem goodT_dummy (b : Int) : GoodT b dummyTrack := by
  constructor
  · exact Or.inl rfl
  · intro hact
    exact absurd hact (by simp [dummyTrack, mkDetTrack])

theorem findTrack_good (b : Int) (h : Heap) (hg : HeapGood b h) (id : Int) :
    GoodT b (findTrack h id) := by
  unfold findTrack
  cases hf : h.find? (fun p => decide (p.1 = id)) with
  | none => exact goodT_dummy b
  | some p => exact hg p (List.mem_of_find?_eq_some hf)

theorem heapGood_setTrack (b : Int) (h : Heap) (id : Int) (t : STrack)
    (hg : HeapGood b h) (ht : GoodT b t) : HeapGood b (setTrack h id t) := by
  intro p hp
  unfold setTrack at hp
  obtain ⟨q, hq, hqe⟩ := List.mem_map.mp hp
  by_cases hk : q.1 = id
  · rw [if_pos hk] at hqe
    rw [← hqe]
    exact ht
  · rw [if_neg hk] at hqe
    rw [← hqe]
    exact hg q hq

theorem heapGood_insertTrack (b : Int) (h : Heap) (id : Int) (t : STrack)
    (hg : HeapGood b h) (ht : GoodT b t) :
    HeapGood b (insertTrack h id t) := by
  intro p hp
  unfold insertTrack at hp
  rcases List.mem_append.mp hp with hp | hp
  · exact hg p hp
  · rw [List.mem_singleton.mp hp]
    exact ht

theorem heapGood_mono (b b' : Int) (h : Heap) (hbb : b ≤ b')
    (hg : HeapGood b h) : HeapGood b' h :=
  fun p hp => GoodT_mono b b' p.2 hbb (hg p hp)

theorem findTrack_setTrack_act_mono (h : Heap) (id0 : Int) (t' : STrack)
    (hmono : (findTrack h id0).is_activated = true → t'.is_activated = true)
    (id : Int) (hact : (findTrack h id).is_activated = true) :
    (findTrack (setTrack h id0 t') id).is_activated = true := by
  cases hf : h.find? (fun p => decide (p.1 = id)) with
  | none =>
    exfalso
    unfold findTrack at hact
    rw [hf] at hact
    exact absurd hact (by simp [dummyTrack, mkDetTrack])
  | some p =>
    have hval : findTrack h id = p.2 := by
      unfold findTrack
      rw [hf]
    have hkey : p.1 = id := by simpa using List.find?_some hf
    unfold findTrack
    rw [find?_setTrack, hf]
    by_cases hk : p.1 = id0
    · simp only [Option.map_some', if_pos hk]
      apply hmono
      have hid : id = id0 := by rw [← hkey, hk]
      rw [← hid]
      exact hact
    · simp only [Option.map_some', if_neg hk]
      rw [← hval]
      exact hact

theorem findTrack_insertTrack_of_act (h : Heap) (iid : Int) (t' : STrack)
    (id : Int) (hact : (findTrack h id).is_activated = true) :
    findTrack (insertTrack h iid t') id = findTrack h id := by
  cases hf : h.find? (fun p => decide (p.1 = id)) with
  | none =>
    exfalso
    unfold findTrack at hact
    rw [hf] at hact
    exact absurd hact (by simp [dummyTrack, mkDetTrack])
  | some p =>
    unfold findTrack insertTrack
    rw [List.find?_append, hf]
    rfl

theorem updateWith_good (t : STrack) (d : Det) (fid : ℕ) (extC : IdCounter)
    (h1 : 1 ≤ extC.curr_id) (hg : GoodT extC.curr_id t) :
    extC.curr_id ≤ (t.updateWith d fid extC).2.curr_id
    ∧ 1 ≤ (t.updateWith d fid extC).2.curr_id
    ∧ GoodT (t.updateWith d fid extC).2.curr_id (t.updateWith d fid extC).1
    ∧ (t.is_activated = true →
        (t.updateWith d fid extC).1.is_activated = true) := by
  obtain ⟨hg1, hg2⟩ := hg
  unfold STrack.updateWith
  by_cases hflip : t.tracklet_len + 1 = t.min_consecutive
  · by_cases hid : t.external_track_id = NO_ID
    · simp only [STrack.kfCorrect, if_pos hflip, if_pos hid, IdCounter.new_id]
      unfold GoodT NO_ID
      refine ⟨by omega, by omega, ⟨Or.inr ⟨h1, ?_⟩, ?_⟩, fun _ => trivial⟩
      · show extC.curr_id < extC.curr_id + 1
        omega
      · intro _
        show ¬ extC.curr_id = -1
        omega
    · simp only [STrack.kfCorrect, if_pos hflip, if_neg hid]
      rcases hg1 with h | ⟨ha, hb⟩
      · exact absurd h hid
      · exact ⟨le_refl _, h1, ⟨Or.inr ⟨ha, hb⟩, fun _ => hid⟩,
          fun _ => trivial⟩
  · simp only [STrack.kfCorrect, if_neg hflip]
    exact ⟨le_refl _, h1, ⟨hg1, hg2⟩, fun hact => hact⟩

theorem reActivate_good (b : Int) (t : STrack) (d : Det) (fid : ℕ)
    (hg : GoodT b t) (hact : t.is_activated = true) :
    GoodT b (t.reActivate d fid)
    ∧ (t.reActivate d fid).is_activated = true := by
  obtain ⟨hg1, hg2⟩ := hg
  unfold STrack.reActivate STrack.kfCorrect
  exact ⟨⟨hg1, fun _ => hg2 hact⟩, rfl⟩

theorem activate_good (mcf : ℕ) (d : Det) (fid : ℕ) (intC extC : IdCounter)
    (h1 : 1 ≤ extC.curr_id) :
    extC.curr_id ≤ ((mkDetTrack mcf d).activate fid intC extC).2.2.curr_id
    ∧ 1 ≤ ((mkDetTrack mcf d).activate fid intC extC).2.2.curr_id
    ∧ GoodT ((mkDetTrack mcf d).activate fid intC extC).2.2.curr_id
        ((mkDetTrack mcf d).activate fid intC extC).1 := by
  unfold STrack.activate
  by_cases hm : (mkDetTrack mcf d).min_consecutive = 1
  · simp only [if_pos hm, IdCounter.new_id]
    unfold GoodT NO_ID
    refine ⟨by omega, by omega, Or.inr ⟨h1, ?_⟩, ?_⟩
    · show extC.curr_id < extC.curr_id + 1
      omega
    · intro _
      show ¬ extC.curr_id = -1
      omega
  · simp only [if_neg hm, IdCounter.new_id]
    refine ⟨le_refl _, h1, ?_, ?_⟩
    · exact Or.inl rfl
    · intro hact
      exact Bool.noConfusion (show false = true from hact)

theorem GoodT_predictOne (b : Int) (t : STrack) (hg : GoodT b t) :
    GoodT b t.predictOne := by
  unfold STrack.predictOne
  by_cases hst : t.state = TrackState.Tracked
  · rw [if_pos hst]
    exact hg
  · rw [if_neg hst]
    exact hg

theorem act_predictOne (t : STrack) :
    t.predictOne.is_activated = t.is_activated := by
  unfold STrack.predictOne
  by_cases hst : t.state = TrackState.Tracked
  · rw [if_pos hst]
  · rw [if_neg hst]

theorem multiPredict_inv (b : Int) (pool : List Int) :
    ∀ (h : Heap), HeapGood b h →
      HeapGood b (multiPredict h pool)
      ∧ ∀ id, (findTrack h id).is_activated = true →
          (findTrack (multiPredict h pool) id).is_activated = true := by
  unfold multiPredict
  induction pool with
  | nil => intro h hg; exact ⟨hg, fun _ ha => ha⟩
  | cons p rest ih =>
    intro h hg
    rw [List.foldl_cons]
    have h1 : HeapGood b (setTrack h p (findTrack h p).predictOne) :=
      heapGood_setTrack _ _ _ _ hg
        (GoodT_predictOne _ _ (findTrack_good _ _ hg _))
    obtain ⟨ih1, ih2⟩ := ih _ h1
    refine ⟨ih1, fun id ha => ih2 id ?_⟩
    exact findTrack_setTrack_act_mono h p _
      (fun hx => by rw [act_predictOne]; exact hx) id ha

theorem assocStep_inv (pool : List Int) (dets : List Det) (fid : ℕ)
    (st : AState) (m : ℕ × ℕ)
    (h1 : 1 ≤ st.ext.curr_id) (hg : HeapGood st.ext.curr_id st.heap)
    (htact : (findTrack st.heap (pool.getD m.1 NO_ID)).is_activated = true) :
    st.ext.curr_id ≤ (assocStep pool dets fid st m).ext.curr_id
    ∧ 1 ≤ (assocStep pool dets fid st m).ext.curr_id
    ∧ HeapGood (assocStep pool dets fid st m).ext.curr_id
        (assocStep pool dets fid st m).heap
    ∧ ∀ id, (findTrack st.heap id).is_activated = true →
        (findTrack (assocStep pool dets fid st m).heap id).is_activated
          = true := by
  have htgood : GoodT st.ext.curr_id
      (findTrack st.heap (pool.getD m.1 NO_ID)) := findTrack_good _ _ hg _
  unfold assocStep
  by_cases hst : (findTrack st.heap (pool.getD m.1 NO_ID)).state
      = TrackState.Tracked
  · simp only [if_pos hst]
    obtain ⟨hu1, hu2, hu3, hu4⟩ :=
      updateWith_good (findTrack st.heap (pool.getD m.1 NO_ID))
        (dets.getD m.2 dummyDet) fid st.ext h1 htgood
    refine ⟨hu1, hu2, ?_, ?_⟩
    · exact heapGood_setTrack _ _ _ _ (heapGood_mono _ _ _ hu1 hg) hu3
    · intro id ha
      exact findTrack_setTrack_act_mono _ _ _ (fun hx => hu4 hx) id ha
  · simp only [if_neg hst]
    obtain ⟨hr1, hr2⟩ :=
      reActivate_good st.ext.curr_id
        (findTrack st.heap (pool.getD m.1 NO_ID))
        (dets.getD m.2 dummyDet) fid htgood htact
    refine ⟨le_refl _, h1, ?_, ?_⟩
    · exact heapGood_setTrack _ _ _ _ hg hr1
    · intro id ha
      exact findTrack_setTrack_act_mono _ _ _ (fun _ => hr2) id ha

theorem assoc_fold_inv (pool : List Int) (dets : List Det) (fid : ℕ) :
    ∀ (ms : List (ℕ × ℕ)) (st : AState),
      (∀ m ∈ ms, m.1 < pool.length) →
      1 ≤ st.ext.curr_id →
      HeapGood st.ext.curr_id st.heap →
      (∀ id ∈ pool, (findTrack st.heap id).is_activated = true) →
      st.ext.curr_id ≤ (ms.foldl (assocStep pool dets fid) st).ext.curr_id
      ∧ 1 ≤ (ms.foldl (assocStep pool dets fid) st).ext.curr_id
      ∧ HeapGood (ms.foldl (assocStep pool dets fid) st).ext.curr_id
          (ms.foldl (assocStep pool dets fid) st).heap
      ∧ ∀ id, (findTrack st.heap id).is_activated = true →
          (findTrack (ms.foldl (assocStep pool dets fid) st).heap
            id).is_activated = true := by
  intro ms
  induction ms with
  | nil => intro st _ h1 hg _; exact ⟨le_refl _, h1, hg, fun _ ha => ha⟩
  | cons m rest ih =>
    intro st hb h1 hg hact
    rw [List.foldl_cons]
    have hm : m.1 < pool.length := hb m (List.mem_cons_self m rest)
    have hid_mem : pool.getD m.1 NO_ID ∈ pool := by
      rw [List.getD_eq_getElem _ _ hm]
      exact List.getElem_mem hm
    obtain ⟨hs1, hs2, hs3, hs4⟩ := assocStep_inv pool dets fid st m h1 hg
      (hact _ hid_mem)
    obtain ⟨hi1, hi2, hi3, hi4⟩ := ih (assocStep pool dets fid st m)
      (fun q hq => hb q (List.mem_cons_of_mem m hq)) hs2 hs3
      (fun id hid => hs4 id (hact id hid))
    exact ⟨le_trans hs1 hi1, hi2, hi3, fun id ha => hi4 id (hs4 id ha)⟩

theorem unconfStep_inv (unconf : List Int) (dets : List Det) (fid : ℕ)
    (st : AState) (m : ℕ × ℕ)
    (h1 : 1 ≤ st.ext.curr_id) (hg : HeapGood st.ext.curr_id st.heap) :
    st.ext.curr_id ≤ (unconfStep unconf dets fid st m).ext.curr_id
    ∧ 1 ≤ (unconfStep unconf dets fid st m).ext.curr_id
    ∧ HeapGood (unconfStep unconf dets fid st m).ext.curr_id
        (unconfStep unconf dets fid st m).heap
    ∧ ∀ id, (findTrack st.heap id).is_activated = true →
        (findTrack (unconfStep unconf dets fid st m).heap id).is_activated
          = true := by
  have htgood : GoodT st.ext.curr_id
      (findTrack st.heap (unconf.getD m.1 NO_ID)) := findTrack_good _ _ hg _
  unfold unconfStep
  obtain ⟨hu1, hu2, hu3, hu4⟩ :=
    updateWith_good (findTrack st.heap (unconf.getD m.1 NO_ID))
      (dets.getD m.2 dummyDet) fid st.ext h1 htgood
  refine ⟨hu1, hu2, ?_, ?_⟩
  · exact heapGood_setTrack _ _ _ _ (heapGood_mono _ _ _ hu1 hg) hu3
  · intro id ha
    exact findTrack_setTrack_act_mono _ _ _ (fun hx => hu4 hx) id ha

theorem unconf_fold_inv (unconf : List Int) (dets : List Det) (fid : ℕ) :
    ∀ (ms : List (ℕ × ℕ)) (st : AState),
      1 ≤ st.ext.curr_id →
      HeapGood st.ext.curr_id st.heap →
      st.ext.curr_id ≤ (ms.foldl (unconfStep unconf dets fid) st).ext.curr_id
      ∧ 1 ≤ (ms.foldl (unconfStep unconf dets fid) st).ext.curr_id
      ∧ HeapGood (ms.foldl (unconfStep unconf dets fid) st).ext.curr_id
          (ms.foldl (unconfStep unconf dets fid) st).heap
      ∧ ∀ id, (findTrack st.heap id).is_activated = true →
          (findTrack (ms.foldl (unconfStep unconf dets fid) st).heap
            id).is_activated = true := by
  intro ms
  induction ms with
  | nil => intro st h1 hg; exact ⟨le_refl _, h1, hg, fun _ ha => ha⟩
  | cons m rest ih =>
    intro st h1 hg
    rw [List.foldl_cons]
    obtain ⟨hs1, hs2, hs3, hs4⟩ := unconfStep_inv unconf dets fid st m h1 hg
    obtain ⟨hi1, hi2, hi3, hi4⟩ := ih (unconfStep unconf dets fid st m)
      hs2 hs3
    exact ⟨le_trans hs1 hi1, hi2, hi3, fun id ha => hi4 id (hs4 id ha)⟩

theorem setStateOnly_inv (b : Int) (h : Heap) (id : Int) (t' : STrack)
    (hext : t'.external_track_id = (findTrack h id).external_track_id)
    (hact : t'.is_activated = (findTrack h id).is_activated)
    (hg : HeapGood b h) :
    HeapGood b (setTrack h id t')
    ∧ ∀ j, (findTrack h j).is_activated = true →
        (findTrack (setTrack h id t') j).is_activated = true := by
  obtain ⟨hgt1, hgt2⟩ := findTrack_good b h hg id
  constructor
  · apply heapGood_setTrack _ _ _ _ hg
    constructor
    · rw [hext]
      exact hgt1
    · intro ha
      rw [hext]
      apply hgt2
      rw [← hact]
      exact ha
  · intro j hj
    apply findTrack_setTrack_act_mono h id t' _ j hj
    intro hx
    rw [hact]
    exact hx

theorem getD_mem_of_lt {α : Type} (l : List α) (i : ℕ) (d : α)
    (h : i < l.length) : l.getD i d ∈ l := by
  rw [List.getD_eq_getElem _ _ h]
  exact List.getElem_mem h

theorem markLost_fold_inv (b : Int) (rtr : List Int) :
    ∀ (l : List ℕ) (acc : Heap × List Int),
      (∀ it ∈ l, it < rtr.length) →
      HeapGood b acc.1 →
      HeapGood b (l.foldl (markLostStep rtr) acc).1
      ∧ (∀ j, (findTrack acc.1 j).is_activated = true →
          (findTrack (l.foldl (markLostStep rtr) acc).1 j).is_activated
            = true)
      ∧ ∀ id ∈ (l.foldl (markLostStep rtr) acc).2,
          id ∈ acc.2 ∨ id ∈ rtr := by
  intro l
  induction l with
  | nil =>
    intro acc _ hg
    exact ⟨hg, fun _ hj => hj, fun id hid => Or.inl hid⟩
  | cons it rest ih =>
    intro acc hb hg
    rw [List.foldl_cons]
    have hit : it < rtr.length := hb it (List.mem_cons_self it rest)
    have hstep : HeapGood b (markLostStep rtr acc it).1
        ∧ (∀ j, (findTrack acc.1 j).is_activated = true →
            (findTrack (markLostStep rtr acc it).1 j).is_activated = true)
        ∧ ∀ id ∈ (markLostStep rtr acc it).2,
            id ∈ acc.2 ∨ id ∈ rtr := by
      unfold markLostStep
      by_cases hc : (findTrack acc.1 (rtr.getD it NO_ID)).state
          ≠ TrackState.Lost
      · simp only [if_pos hc]
        obtain ⟨hh, hm⟩ := setStateOnly_inv b acc.1 (rtr.getD it NO_ID)
          { findTrack acc.1 (rtr.getD it NO_ID) with
            state := TrackState.Lost } rfl rfl hg
        refine ⟨hh, hm, ?_⟩
        intro id hid
        rcases List.mem_append.mp hid with hid | hid
        · exact Or.inl hid
        · rw [List.mem_singleton.mp hid]
          exact Or.inr (getD_mem_of_lt rtr it NO_ID hit)
      · simp only [if_neg hc]
        exact ⟨hg, fun _ hj => hj, fun id hid => Or.inl hid⟩
    obtain ⟨hs1, hs2, hs3⟩ := hstep
    obtain ⟨hi1, hi2, hi3⟩ := ih (markLostStep rtr acc it)
      (fun q hq => hb q (List.mem_cons_of_mem it hq)) hs1
    refine ⟨hi1, fun j hj => hi2 j (hs2 j hj), ?_⟩
    intro id hid
    rcases hi3 id hid with hid2 | hid2
    · exact hs3 id hid2
    · exact Or.inr hid2

theorem markRemoved_fold_inv (b : Int) (unconf : List Int) :
    ∀ (l : List ℕ) (acc : Heap × List Int),
      HeapGood b acc.1 →
      HeapGood b (l.foldl (markRemovedStep unconf) acc).1
      ∧ ∀ j, (findTrack acc.1 j).is_activated = true →
          (findTrack (l.foldl (markRemovedStep unconf) acc).1
            j).is_activated = true := by
  intro l
  induction l with
  | nil => intro acc hg; exact ⟨hg, fun _ hj => hj⟩
  | cons it rest ih =>
    intro acc hg
    rw [List.foldl_cons]
    have hstep := setStateOnly_inv b acc.1 (unconf.getD it NO_ID)
      { findTrack acc.1 (unconf.getD it NO_ID) with
        state := TrackState.Removed } rfl rfl hg
    obtain ⟨hi1, hi2⟩ := ih (markRemovedStep unconf acc it) (by
      unfold markRemovedStep
      exact hstep.1)
    refine ⟨hi1, fun j hj => hi2 j ?_⟩
    show (findTrack (markRemovedStep unconf acc it).1 j).is_activated = true
    unfold markRemovedStep
    exact hstep.2 j hj

theorem expire_fold_inv (b : Int) (fid : ℕ) (mtl : ℤ) :
    ∀ (l : List Int) (acc : Heap × List Int),
      HeapGood b acc.1 →
      HeapGood b (l.foldl (expireStep fid mtl) acc).1
      ∧ ∀ j, (findTrack acc.1 j).is_activated = true →
          (findTrack (l.foldl (expireStep fid mtl) acc).1 j).is_activated
            = true := by
  intro l
  induction l with
  | nil => intro acc hg; exact ⟨hg, fun _ hj => hj⟩
  | cons id0 rest ih =>
    intro acc hg
    rw [List.foldl_cons]
    have hstep : HeapGood b (expireStep fid mtl acc id0).1
        ∧ ∀ j, (findTrack acc.1 j).is_activated = true →
            (findTrack (expireStep fid mtl acc id0).1 j).is_activated
              = true := by
      unfold expireStep
      by_cases hc : (fid : ℤ) - ((findTrack acc.1 id0).frame_id : ℤ) > mtl
      · simp only [if_pos hc]
        exact setStateOnly_inv b acc.1 id0
          { findTrack acc.1 id0 with state := TrackState.Removed } rfl rfl hg
      · simp only [if_neg hc]
        exact ⟨hg, fun _ hj => hj⟩
    obtain ⟨hi1, hi2⟩ := ih (expireStep fid mtl acc id0) hstep.1
    exact ⟨hi1, fun j hj => hi2 j (hstep.2 j hj)⟩

theorem newTrackStep_inv (dets : List Det) (dt : ℚ) (mcf fid : ℕ)
    (st : NState) (inew : ℕ)
    (h1 : 1 ≤ st.extC.curr_id) (hg : HeapGood st.extC.curr_id st.heap) :
    st.extC.curr_id ≤ (newTrackStep dets dt mcf fid st inew).extC.curr_id
    ∧ 1 ≤ (newTrackStep dets dt mcf fid st inew).extC.curr_id
    ∧ HeapGood (newTrackStep dets dt mcf fid st inew).extC.curr_id
        (newTrackStep dets dt mcf fid st inew).heap
    ∧ ∀ id, (findTrack st.heap id).is_activated = true →
        (findTrack (newTrackStep dets dt mcf fid st inew).heap
          id).is_activated = true := by
  unfold newTrackStep
  by_cases hsc : (dets.getD inew dummyDet).score < dt
  · simp only [if_pos hsc]
    exact ⟨le_refl _, h1, hg, fun _ ha => ha⟩
  · simp only [if_neg hsc]
    obtain ⟨ha1, ha2, ha3⟩ :=
      activate_good mcf (dets.getD inew dummyDet) fid st.intC st.extC h1
    refine ⟨ha1, ha2, ?_, ?_⟩
    · exact heapGood_insertTrack _ _ _ _ (heapGood_mono _ _ _ ha1 hg) ha3
    · intro id ha
      rw [findTrack_insertTrack_of_act _ _ _ _ ha]
      exact ha

theorem newTrack_fold_inv (dets : List Det) (dt : ℚ) (mcf fid : ℕ) :
    ∀ (l : List ℕ) (st : NState),
      1 ≤ st.extC.curr_id →
      HeapGood st.extC.curr_id st.heap →
      st.extC.curr_id
          ≤ (l.foldl (newTrackStep dets dt mcf fid) st).extC.curr_id
      ∧ 1 ≤ (l.foldl (newTrackStep dets dt mcf fid) st).extC.curr_id
      ∧ HeapGood (l.foldl (newTrackStep dets dt mcf fid) st).extC.curr_id
          (l.foldl (newTrackStep dets dt mcf fid) st).heap
      ∧ ∀ id, (findTrack st.heap id).is_activated = true →
          (findTrack (l.foldl (newTrackStep dets dt mcf fid) st).heap
            id).is_activated = true := by
  intro l
  induction l with
  | nil => intro st h1 hg; exact ⟨le_refl _, h1, hg, fun _ ha => ha⟩
  | cons inew rest ih =>
    intro st h1 hg
    rw [List.foldl_cons]
    obtain ⟨hs1, hs2, hs3, hs4⟩ :=
      newTrackStep_inv dets dt mcf fid st inew h1 hg
    obtain ⟨hi1, hi2, hi3, hi4⟩ :=
      ih (newTrackStep dets dt mcf fid st inew) hs2 hs3
    exact ⟨le_trans hs1 hi1, hi2, hi3, fun id ha => hi4 id (hs4 id ha)⟩

theorem candMatchings_bounds (cost : List (List ℚ)) (thresh : ℚ) :
    ∀ (rowsL colsL : List ℕ) (m : List (ℕ × ℕ)),
      m ∈ candMatchings cost thresh rowsL colsL →
      ∀ p ∈ m, p.1 ∈ rowsL ∧ p.2 ∈ colsL := by
  intro rowsL
  induction rowsL with
  | nil =>
    intro colsL m hm p hp
    unfold candMatchings at hm
    rw [List.mem_singleton.mp hm] at hp
    exact absurd hp (List.not_mem_nil p)
  | cons r rs ih =>
    intro colsL m hm p hp
    unfold candMatchings at hm
    rcases List.mem_append.mp hm with hm | hm
    · obtain ⟨h1, h2⟩ := ih colsL m hm p hp
      exact ⟨List.mem_cons_of_mem r h1, h2⟩
    · obtain ⟨c, hc, hmf⟩ := List.mem_flatMap.mp hm
      obtain ⟨m3, hm3, hm3e⟩ := List.mem_map.mp hmf
      rw [← hm3e] at hp
      rcases List.mem_cons.mp hp with hp | hp
      · rw [hp]
        exact ⟨List.mem_cons_self r rs,
          List.mem_of_mem_filter hc⟩
      · obtain ⟨h1, h2⟩ := ih (colsL.erase c) m3 hm3 p hp
        exact ⟨List.mem_cons_of_mem r h1,
          List.mem_of_mem_erase h2⟩

theorem pickBest_mem (cost : List (List ℚ)) (thresh : ℚ)
    (cands : List (List (ℕ × ℕ))) :
    pickBest cost thresh cands = [] ∨ pickBest cost thresh cands ∈ cands := by
  unfold pickBest
  cases cands with
  | nil => exact Or.inl rfl
  | cons c cs =>
    right
    suffices h : ∀ (l : List (List (ℕ × ℕ))) (best : List (ℕ × ℕ)),
        best ∈ c :: cs → (∀ x ∈ l, x ∈ c :: cs) →

        (l.foldl (fun best x =>
          if matchingValue cost thresh x < matchingValue cost thresh best
          then x else best) best) ∈ c :: cs by
      exact h cs c (List.mem_cons_self c cs)
        (fun x hx => List.mem_cons_of_mem c hx)
    intro l
    induction l with
    | nil => intro best hb _; exact hb
    | cons x xs ih =>
      intro best hb hl
      rw [List.foldl_cons]
      apply ih
      · by_cases hlt : matchingValue cost thresh x
            < matchingValue cost thresh best
        · rw [if_pos hlt]
          exact hl x (List.mem_cons_self x xs)
        · rw [if_neg hlt]
          exact hb
      · intro q hq
        exact hl q (List.mem_cons_of_mem x hq)

theorem linear_assignment_matches_bounds (cost : List (List ℚ))
    (nRows nCols : ℕ) (thresh : ℚ) :
    ∀ p ∈ (linear_assignment cost nRows nCols thresh).1,
      p.1 < nRows ∧ p.2 < nCols := by
  intro p hp
  unfold linear_assignment at hp
  rcases pickBest_mem cost thresh
      (candMatchings cost thresh (List.range nRows) (List.range nCols))
    with hb | hb
  · rw [hb] at hp
    exact absurd hp (List.not_mem_nil p)
  · obtain ⟨h1, h2⟩ := candMatchings_bounds cost thresh
      (List.range nRows) (List.range nCols) _ hb p hp
    exact ⟨List.mem_range.mp h1, List.mem_range.mp h2⟩

theorem linear_assignment_unmatched_rows (cost : List (List ℚ))
    (nRows nCols : ℕ) (thresh : ℚ) :
    ∀ i ∈ (linear_assignment cost nRows nCols thresh).2.1, i < nRows := by
  intro i hi
  unfold linear_assignment at hi
  exact List.mem_range.mp (List.mem_of_mem_filter hi)

theorem linear_assignment_unmatched_cols (cost : List (List ℚ))
    (nRows nCols : ℕ) (thresh : ℚ) :
    ∀ j ∈ (linear_assignment cost nRows nCols thresh).2.2, j < nCols := by
  intro j hj
  unfold linear_assignment at hj
  exact List.mem_range.mp (List.mem_of_mem_filter hj)

theorem mem_subTracks (a b : List Int) (id : Int) (h : id ∈ subTracks a b) :
    id ∈ a := by
  unfold subTracks at h
  exact (mem_dedupIds a id).mp (List.mem_of_mem_filter h)

theorem mem_enum_filter_snd {α : Type} (l : List α) (p : ℕ × α → Bool)
    (x : α) (hx : x ∈ (l.enum.filter p).map Prod.snd) : x ∈ l := by
  obtain ⟨q, hq, hqe⟩ := List.mem_map.mp hx
  have hqm := List.mem_of_mem_filter hq
  rw [List.mem_enum_iff_getElem?] at hqm
  obtain ⟨hlt, hget⟩ := List.getElem?_eq_some_iff.mp hqm
  rw [← hqe, ← hget]
  exact List.getElem_mem hlt

theorem scatterIds_entries (heap : Heap) (tracks : List Int) :
    ∀ (ms : List (ℕ × ℕ)) (a : List Int) (e : Int),
      e ∈ ms.foldl (fun (a : List Int) m =>
        a.set m.1 ((findTrack heap
          (tracks.getD m.2 NO_ID)).external_track_id)) a →
      e ∈ a ∨ ∃ m ∈ ms,
        e = (findTrack heap (tracks.getD m.2 NO_ID)).external_track_id := by
  intro ms
  induction ms with
  | nil => intro a e he; exact Or.inl he
  | cons m rest ih =>
    intro a e he
    rw [List.foldl_cons] at he
    rcases ih _ e he with he2 | ⟨m2, hm2, hme⟩
    · rcases List.mem_or_eq_of_mem_set he2 with he3 | he3
      · exact Or.inl he3
      · exact Or.inr ⟨m, List.mem_cons_self m rest, he3⟩
    · exact Or.inr ⟨m2, List.mem_cons_of_mem m hm2, hme⟩

theorem updateWithTensors_eq_slices (s : BYTETrack) (tensors : List Det) :
    s.updateWithTensors tensors
      = ({ s with
           frame_id := uwtFid s
           heap := uwtH3 s tensors
           internal_id_counter := (uwtStD s tensors).intC
           external_id_counter := (uwtStD s tensors).extC
           tracked_tracks := (uwtDedup s tensors).1
           lost_tracks := (uwtDedup s tensors).2
           removed_tracks := (uwtExpireFold s tensors).2 },
         (uwtDedup s tensors).1.filter
           (fun id => (findTrack (uwtH3 s tensors) id).is_activated)) := rfl

theorem uwt_pipeline_inv (s : BYTETrack) (tensors : List Det)
    (h1 : 1 ≤ s.external_id_counter.curr_id)
    (hg : HeapGood s.external_id_counter.curr_id s.heap)
    (hlost : ∀ id ∈ s.lost_tracks,
      (findTrack s.heap id).is_activated = true) :
    s.external_id_counter.curr_id ≤ (uwtStD s tensors).extC.curr_id
    ∧ 1 ≤ (uwtStD s tensors).extC.curr_id
    ∧ HeapGood (uwtStD s tensors).extC.curr_id (uwtH3 s tensors)
    ∧ (∀ id, (findTrack s.heap id).is_activated = true →
        (findTrack (uwtH3 s tensors) id).is_activated = true)
    ∧ (∀ id ∈ strackPoolOf s,
        (findTrack (uwtH3 s tensors) id).is_activated = true)
    ∧ ∀ id ∈ (uwtLostFold s tensors).2, id ∈ strackPoolOf s := by
  have hpool : ∀ id ∈ strackPoolOf s,
      (findTrack s.heap id).is_activated = true := by
    intro id hid
    rcases (mem_jointTracks _ _ id).mp hid with h | h
    · have h2 : id ∈ s.tracked_tracks.filter
          (fun id => (findTrack s.heap id).is_activated) := h
      exact (List.mem_filter.mp h2).2
    · exact hlost id h
  obtain ⟨hg0, hm0⟩ := multiPredict_inv s.external_id_counter.curr_id
    (strackPoolOf s) s.heap hg
  have hg0' : HeapGood s.external_id_counter.curr_id (uwtH0 s) := hg0
  have hm0' : ∀ id, (findTrack s.heap id).is_activated = true →
      (findTrack (uwtH0 s) id).is_activated = true := hm0
  have hbA : ∀ m ∈ (uwtAssignA s tensors).1,
      m.1 < (strackPoolOf s).length := fun m hm =>
    (linear_assignment_matches_bounds _ _ _ _ m hm).1
  obtain ⟨hA1, hA2, hA3, hA4⟩ := assoc_fold_inv (strackPoolOf s)
    (uwtDets s tensors) (uwtFid s) (uwtAssignA s tensors).1
    ⟨uwtH0 s, s.external_id_counter, [], []⟩ hbA h1 hg0'
    (fun id hid => hm0' id (hpool id hid))
  have hA1' : s.external_id_counter.curr_id
      ≤ (uwtStA s tensors).ext.curr_id := hA1
  have hA2' : 1 ≤ (uwtStA s tensors).ext.curr_id := hA2
  have hA3' : HeapGood (uwtStA s tensors).ext.curr_id
      (uwtStA s tensors).heap := hA3
  have hmA : ∀ id, (findTrack s.heap id).is_activated = true →
      (findTrack (uwtStA s tensors).heap id).is_activated = true :=
    fun id ha => hA4 id (hm0' id ha)
  have hrt : ∀ id ∈ uwtRTracked s tensors, id ∈ strackPoolOf s := by
    intro id hid
    unfold uwtRTracked at hid
    obtain ⟨i, hi, hie⟩ := List.mem_map.mp (List.mem_of_mem_filter hid)
    have hlt : i < (strackPoolOf s).length :=
      linear_assignment_unmatched_rows _ _ _ _ i hi
    rw [← hie]
    exact getD_mem_of_lt _ _ _ hlt
  have hbB : ∀ m ∈ (uwtAssignB s tensors).1,
      m.1 < (uwtRTracked s tensors).length := fun m hm =>
    (linear_assignment_matches_bounds _ _ _ _ m hm).1
  obtain ⟨hB1, hB2, hB3, hB4⟩ := assoc_fold_inv (uwtRTracked s tensors)
    (uwtDetsSecond s tensors) (uwtFid s) (uwtAssignB s tensors).1
    (uwtStA s tensors) hbB hA2' hA3'
    (fun id hid => hmA id (hpool id (hrt id hid)))
  have hB1' : (uwtStA s tensors).ext.curr_id
      ≤ (uwtStB s tensors).ext.curr_id := hB1
  have hB2' : 1 ≤ (uwtStB s tensors).ext.curr_id := hB2
  have hB3' : HeapGood (uwtStB s tensors).ext.curr_id
      (uwtStB s tensors).heap := hB3
  have hmB : ∀ id, (findTrack s.heap id).is_activated = true →
      (findTrack (uwtStB s tensors).heap id).is_activated = true :=
    fun id ha => hB4 id (hmA id ha)
  have hbL : ∀ it ∈ (uwtAssignB s tensors).2.1,
      it < (uwtRTracked s tensors).length := fun it hit =>
    linear_assignment_unmatched_rows _ _ _ _ it hit
  obtain ⟨hL1, hL2, hL3⟩ := markLost_fold_inv
    (uwtStB s tensors).ext.curr_id (uwtRTracked s tensors)
    (uwtAssignB s tensors).2.1 ((uwtStB s tensors).heap, []) hbL hB3'
  have hL1' : HeapGood (uwtStB s tensors).ext.curr_id
      (uwtLostFold s tensors).1 := hL1
  have hmL : ∀ id, (findTrack s.heap id).is_activated = true →
      (findTrack (uwtLostFold s tensors).1 id).is_activated = true :=
    fun id ha => hL2 id (hmB id ha)
  have hLmem : ∀ id ∈ (uwtLostFold s tensors).2, id ∈ strackPoolOf s := by
    intro id hid
    rcases hL3 id hid with h | h
    · exact absurd h (List.not_mem_nil id)
    · exact hrt id h
  obtain ⟨hC1, hC2, hC3, hC4⟩ := unconf_fold_inv (uwtUnconfirmed s)
    (uwtDetsC s tensors) (uwtFid s) (uwtAssignC s tensors).1
    { uwtStB s tensors with heap := (uwtLostFold s tensors).1 } hB2' hL1'
  have hC1' : (uwtStB s tensors).ext.curr_id
      ≤ (uwtStC s tensors).ext.curr_id := hC1
  have hC2' : 1 ≤ (uwtStC s tensors).ext.curr_id := hC2
  have hC3' : HeapGood (uwtStC s tensors).ext.curr_id
      (uwtStC s tensors).heap := hC3
  have hmC : ∀ id, (findTrack s.heap id).is_activated = true →
      (findTrack (uwtStC s tensors).heap id).is_activated = true :=
    fun id ha => hC4 id (hmL id ha)
  obtain ⟨hR1, hR2⟩ := markRemoved_fold_inv
    (uwtStC s tensors).ext.curr_id (uwtUnconfirmed s)
    (uwtAssignC s tensors).2.1 ((uwtStC s tensors).heap, []) hC3'
  have hR1' : HeapGood (uwtStC s tensors).ext.curr_id
      (uwtRemovedFold s tensors).1 := hR1
  have hmR : ∀ id, (findTrack s.heap id).is_activated = true →
      (findTrack (uwtRemovedFold s tensors).1 id).is_activated = true :=
    fun id ha => hR2 id (hmC id ha)
  obtain ⟨hD1, hD2, hD3, hD4⟩ := newTrack_fold_inv (uwtDetsC s tensors)
    s.det_thresh s.minimum_consecutive_frames (uwtFid s)
    (uwtAssignC s tensors).2.2
    ⟨(uwtRemovedFold s tensors).1, s.internal_id_counter,
      (uwtStC s tensors).ext, (uwtStC s tensors).activated⟩ hC2' hR1'
  have hD1' : (uwtStC s tensors).ext.curr_id
      ≤ (uwtStD s tensors).extC.curr_id := hD1
  have hD2' : 1 ≤ (uwtStD s tensors).extC.curr_id := hD2
  have hD3' : HeapGood (uwtStD s tensors).extC.curr_id
      (uwtStD s tensors).heap := hD3
  have hmD : ∀ id, (findTrack s.heap id).is_activated = true →
      (findTrack (uwtStD s tensors).heap id).is_activated = true :=
    fun id ha => hD4 id (hmR id ha)
  obtain ⟨hE1, hE2⟩ := expire_fold_inv (uwtStD s tensors).extC.curr_id
    (uwtFid s) s.max_time_lost s.lost_tracks
    ((uwtStD s tensors).heap, (uwtRemovedFold s tensors).2) hD3'
  have hE1' : HeapGood (uwtStD s tensors).extC.curr_id
      (uwtH3 s tensors) := hE1
  have hmE : ∀ id, (findTrack s.heap id).is_activated = true →
      (findTrack (uwtH3 s tensors) id).is_activated = true :=
    fun id ha => hE2 id (hmD id ha)
  exact ⟨le_trans hA1' (le_trans hB1' (le_trans hC1' hD1')), hD2', hE1',
    hmE, fun id hid => hmE id (hpool id hid), hLmem⟩

theorem updateWithTensors_inv (s : BYTETrack) (tensors : List Det)
    (h1 : 1 ≤ s.external_id_counter.curr_id)
    (hg : HeapGood s.external_id_counter.curr_id s.heap)
    (hlost : ∀ id ∈ s.lost_tracks,
      (findTrack s.heap id).is_activated = true) :
    1 ≤ (s.updateWithTensors tensors).1.external_id_counter.curr_id
    ∧ s.external_id_counter.curr_id
        ≤ (s.updateWithTensors tensors).1.external_id_counter.curr_id
    ∧ HeapGood (s.updateWithTensors tensors).1.external_id_counter.curr_id
        (s.updateWithTensors tensors).1.heap
    ∧ (∀ id ∈ (s.updateWithTensors tensors).1.lost_tracks,
        (findTrack (s.updateWithTensors tensors).1.heap id).is_activated
          = true)
    ∧ ∀ id ∈ (s.updateWithTensors tensors).2,
        (findTrack (s.updateWithTensors tensors).1.heap id).is_activated
          = true := by
  obtain ⟨hP1, hP2, hP3, hP4, hP5, hP6⟩ := uwt_pipeline_inv s tensors h1 hg
    hlost
  rw [updateWithTensors_eq_slices]
  refine ⟨hP2, hP1, hP3, ?_, ?_⟩
  · intro id hid
    have h2 : id ∈ uwtLost3 s tensors := by
      have hid2 : id ∈ (uwtDedup s tensors).2 := hid
      unfold uwtDedup remove_duplicate_tracks at hid2
      exact mem_enum_filter_snd _ _ _ hid2
    have h3 := mem_subTracks _ _ _ h2
    rcases List.mem_append.mp h3 with h4 | h4
    · have h5 : id ∈ s.lost_tracks := mem_subTracks _ _ _ h4
      exact hP5 id ((mem_jointTracks _ _ id).mpr (Or.inr h5))
    · exact hP5 id (hP6 id h4)
  · intro id hid
    have hid2 : id ∈ List.filter
        (fun id => (findTrack (uwtH3 s tensors) id).is_activated)
        (uwtDedup s tensors).1 := hid
    exact (List.mem_filter.mp hid2).2

theorem singleClsUpdate_inv (s : BYTETrack) (boxes : List Box)
    (confs : List ℚ)
    (h1 : 1 ≤ s.external_id_counter.curr_id)
    (hg : HeapGood s.external_id_counter.curr_id s.heap)
    (hlost : ∀ id ∈ s.lost_tracks,
      (findTrack s.heap id).is_activated = true) :
    1 ≤ (s.singleClsUpdate boxes confs).2.external_id_counter.curr_id
    ∧ s.external_id_counter.curr_id
        ≤ (s.singleClsUpdate boxes confs).2.external_id_counter.curr_id
    ∧ HeapGood (s.singleClsUpdate boxes confs).2.external_id_counter.curr_id
        (s.singleClsUpdate boxes confs).2.heap
    ∧ (∀ id ∈ (s.singleClsUpdate boxes confs).2.lost_tracks,
        (findTrack (s.singleClsUpdate boxes confs).2.heap id).is_activated
          = true)
    ∧ ∀ e ∈ (s.singleClsUpdate boxes confs).1,
        e = NO_ID ∨ (1 ≤ e
          ∧ e < (s.singleClsUpdate boxes confs).2.external_id_counter.curr_id)
    := by
  by_cases h0 : boxes.length * confs.length = 0
  · have he : s.singleClsUpdate boxes confs = ([], s) := by
      unfold BYTETrack.singleClsUpdate
      rw [if_pos h0]
    rw [he]
    exact ⟨h1, le_refl _, hg, hlost,
      fun e he2 => absurd he2 (List.not_mem_nil e)⟩
  · obtain ⟨hU1, hU2, hU3, hU4, hU5⟩ := updateWithTensors_inv s
      ((boxes.zip confs).map (fun p => Det.mk p.1 p.2)) h1 hg hlost
    simp only [BYTETrack.singleClsUpdate]
    rw [if_neg h0]
    by_cases hemp : ((s.updateWithTensors
        ((boxes.zip confs).map (fun p => Det.mk p.1 p.2))).2).isEmpty = true
    · rw [if_pos hemp]
      refine ⟨hU1, hU2, hU3, hU4, ?_⟩
      intro e he
      exact Or.inl (List.eq_of_mem_replicate he)
    · rw [if_neg hemp]
      refine ⟨hU1, hU2, hU3, hU4, ?_⟩
      intro e he
      rcases scatterIds_entries _ _ _ _ e he with h | ⟨m, hm, hme⟩
      · exact Or.inl (List.eq_of_mem_replicate h)
      · right
        have hb := (linear_assignment_matches_bounds _ _ _ _ m hm).2
        have hm2 : m.2 < ((s.updateWithTensors
            ((boxes.zip confs).map (fun p => Det.mk p.1 p.2))).2).length := by
          simpa using hb
        have hmem := getD_mem_of_lt _ m.2 NO_ID hm2
        have hact := hU5 _ hmem
        have hgt := findTrack_good _ _ hU3
          (((s.updateWithTensors
            ((boxes.zip confs).map (fun p => Det.mk p.1 p.2))).2).getD m.2
            NO_ID)
        rcases hgt.1 with hno | hyes
        · exact absurd hno (hgt.2 hact)
        · rw [hme]
          exact hyes

theorem classStep_inv (rows : List (Box × ℚ × Int)) (cur : ℕ)
    (acc : List Int × List ℕ × BYTETrack) (k : ℕ)
    (h1 : 1 ≤ acc.2.2.external_id_counter.curr_id)
    (hg : HeapGood acc.2.2.external_id_counter.curr_id acc.2.2.heap)
    (hlost : ∀ id ∈ acc.2.2.lost_tracks,
      (findTrack acc.2.2.heap id).is_activated = true) :
    1 ≤ (classStep rows cur acc k).2.2.external_id_counter.curr_id
    ∧ acc.2.2.external_id_counter.curr_id
        ≤ (classStep rows cur acc k).2.2.external_id_counter.curr_id
    ∧ HeapGood (classStep rows cur acc k).2.2.external_id_counter.curr_id
        (classStep rows cur acc k).2.2.heap
    ∧ (∀ id ∈ (classStep rows cur acc k).2.2.lost_tracks,
        (findTrack (classStep rows cur acc k).2.2.heap id).is_activated
          = true)
    ∧ ∀ e ∈ (classStep rows cur acc k).1,
        e ∈ acc.1 ∨ e = NO_ID
          ∨ (1 ≤ e
            ∧ e < (classStep rows cur acc k).2.2.external_id_counter.curr_id)
    := by
  by_cases hbe : (clsBucket rows k).isEmpty = true
  · have he : classStep rows cur acc k = acc := by
      unfold classStep
      rw [if_pos hbe]
    rw [he]
    exact ⟨h1, le_refl _, hg, hlost, fun e he2 => Or.inl he2⟩
  · obtain ⟨hS1, hS2, hS3, hS4, hS5⟩ := singleClsUpdate_inv
      { acc.2.2 with
        tracked_tracks := acc.2.2.cls2tracked_tracks.getD k []
        frame_id := cur }
      ((clsBucket rows k).map (fun r => r.1))
      ((clsBucket rows k).map (fun r => r.2.1)) h1 hg hlost
    simp only [classStep]
    rw [if_neg hbe]
    refine ⟨hS1, hS2, hS3, hS4, ?_⟩
    intro e he
    rcases List.mem_append.mp he with h | h
    · exact Or.inl h
    · exact Or.inr (hS5 e h)

theorem classStep_fold_inv (rows : List (Box × ℚ × Int)) (cur : ℕ) :
    ∀ (l : List ℕ) (acc : List Int × List ℕ × BYTETrack),
      1 ≤ acc.2.2.external_id_counter.curr_id →
      HeapGood acc.2.2.external_id_counter.curr_id acc.2.2.heap →
      (∀ id ∈ acc.2.2.lost_tracks,
        (findTrack acc.2.2.heap id).is_activated = true) →
      1 ≤ (l.foldl (classStep rows cur)
            acc).2.2.external_id_counter.curr_id
      ∧ acc.2.2.external_id_counter.curr_id
          ≤ (l.foldl (classStep rows cur)
              acc).2.2.external_id_counter.curr_id
      ∧ HeapGood (l.foldl (classStep rows cur)
            acc).2.2.external_id_counter.curr_id
          (l.foldl (classStep rows cur) acc).2.2.heap
      ∧ (∀ id ∈ (l.foldl (classStep rows cur) acc).2.2.lost_tracks,
          (findTrack (l.foldl (classStep rows cur) acc).2.2.heap
            id).is_activated = true)
      ∧ ∀ e ∈ (l.foldl (classStep rows cur) acc).1,
          e ∈ acc.1 ∨ e = NO_ID
            ∨ (1 ≤ e ∧ e < (l.foldl (classStep rows cur)
                acc).2.2.external_id_counter.curr_id) := by
  intro l
  induction l with
  | nil =>
    intro acc h1 hg hlost
    exact ⟨h1, le_refl _, hg, hlost, fun e he => Or.inl he⟩
  | cons k rest ih =>
    intro acc h1 hg hlost
    rw [List.foldl_cons]
    obtain ⟨hA1, hA2, hA3, hA4, hA5⟩ := classStep_inv rows cur acc k h1 hg
      hlost
    obtain ⟨hB1, hB2, hB3, hB4, hB5⟩ := ih (classStep rows cur acc k) hA1
      hA3 hA4
    refine ⟨hB1, le_trans hA2 hB2, hB3, hB4, ?_⟩
    intro e he
    rcases hB5 e he with h | h | h
    · rcases hA5 e h with h2 | h2 | h2
      · exact Or.inl h2
      · exact Or.inr (Or.inl h2)
      · exact Or.inr (Or.inr ⟨h2.1, lt_of_lt_of_le h2.2 hB2⟩)
    · exact Or.inr (Or.inl h)
    · exact Or.inr (Or.inr h)

theorem mem_argsortScatter (ids : List Int) (ord : List ℕ) (e : Int)
    (he : e ∈ argsortScatter ids ord) : e ∈ ids := by
  obtain ⟨p, hp, hpe⟩ := List.mem_map.mp he
  have hp2 : p ∈ ord.zip ids :=
    (List.perm_insertionSort (fun a b => a.1 ≤ b.1) (ord.zip ids)).mem_iff.mp
      hp
  rw [← hpe]
  exact (List.of_mem_zip hp2).2

theorem update_inv (s : BYTETrack) (xs : List Box) (cs : List ℚ)
    (ks : List Int) (r : List Int) (s2 : BYTETrack)
    (hinv : TrackerInv s) (hok : s.update xs cs ks = .ok (r, s2)) :
    TrackerInv s2
    ∧ s.external_id_counter.curr_id ≤ s2.external_id_counter.curr_id
    ∧ ∀ e ∈ r, e = NO_ID
        ∨ (1 ≤ e ∧ e < s2.external_id_counter.curr_id) := by
  obtain ⟨h1, hg, hlost⟩ := hinv
  unfold BYTETrack.update at hok
  by_cases hc : clsGroupOk s.n_classes (zip3 xs cs ks) = true
  · rw [if_pos hc] at hok
    have hpair : (argsortScatter (s.updateCore xs cs ks).1
        (s.updateCore xs cs ks).2.1, (s.updateCore xs cs ks).2.2)
        = (r, s2) := Except.ok.inj hok
    rw [Prod.mk.injEq] at hpair
    obtain ⟨hr, hs⟩ := hpair
    obtain ⟨hF1, hF2, hF3, hF4, hF5⟩ := classStep_fold_inv (zip3 xs cs ks)
      s.frame_id (List.range s.n_classes.toNat) ([], [], s) h1 hg hlost
    subst hr
    subst hs
    refine ⟨⟨hF1, hF3, hF4⟩, hF2, ?_⟩
    intro e he
    have he2 := mem_argsortScatter _ _ e he
    rcases hF5 e he2 with h | h | h
    · exact absurd h (List.not_mem_nil e)
    · exact Or.inl h
    · exact Or.inr h
  · rw [if_neg hc] at hok
    exact Except.noConfusion hok

theorem make_inv (n : Int) (tat : ℚ) (ltb : ℕ) (mmt : ℚ) (fr : ℕ)
    (mcf : ℕ) (s : BYTETrack)
    (h : BYTETrack.make n tat ltb mmt fr mcf = .ok s) : TrackerInv s := by
  have h2 := Except.ok.inj h
  rw [← h2]
  exact ⟨le_refl 1, fun p hp => absurd hp (List.not_mem_nil p),
    fun id hid => absurd hid (List.not_mem_nil id)⟩

theorem reachable_inv (s : BYTETrack) (hr : Reachable s) : TrackerInv s := by
  induction hr with
  | made n tat ltb mmt fr mcf t hmk =>
    exact make_inv n tat ltb mmt fr mcf t hmk
  | step t xs cs ks r t2 _ hok ih =>
    exact (update_inv t xs cs ks r t2 ih hok).1

/-- C10: on any tracker reachable from a fresh construction through
successful `update` calls, every entry of a successful `update`'s returned id
array is either the sentinel `-1` or an id the external allocator has already
handed out (a value in `[1, next_external_id)`), the allocator's next id never
decreases across the call and is at least `1` before it; moreover `new_id`
returns the current id and post-increments it (so successive calls return
strictly increasing values) and the default external allocator construction
`IdCounter.make 1` starts the counter at `1`.  Hence `-1` never collides with
a reported real track id and unambiguously means unassigned. -/
theorem c10_output_ids_from_allocator (s : BYTETrack) (xs : List Box)
    (cs : List ℚ) (ks : List Int) (r : List Int) (s2 : BYTETrack)
    (hs : Reachable s) (hok : s.update xs cs ks = .ok (r, s2)) :
    (∀ e ∈ r, e = NO_ID
      ∨ (1 ≤ e ∧ e < s2.external_id_counter.curr_id))
    ∧ s.external_id_counter.curr_id ≤ s2.external_id_counter.curr_id
    ∧ 1 ≤ s.external_id_counter.curr_id
    ∧ (∀ c : IdCounter, (c.new_id).1 = c.curr_id
        ∧ (c.new_id).2.curr_id = c.curr_id + 1)
    ∧ IdCounter.make 1 = .ok ⟨1, 1⟩ := by
  have hinv := reachable_inv s hs
  obtain ⟨hT, hM, hE⟩ := update_inv s xs cs ks r s2 hinv hok
  exact ⟨hE, hM, hinv.1, fun c => ⟨rfl, rfl⟩, by with_unfolding_all rfl⟩

theorem c10_witness :
    (1 : Int) = NO_ID
    ∨ (1 ≤ (1 : Int) ∧ (1 : Int) < demoS1.external_id_counter.curr_id) :=
  (c10_output_ids_from_allocator demoTracker1 [boxA] [9/10] [0] [1] demoS1
    (Reachable.made 1 (1/4) 30 (4/5) 30 1 demoTracker1
      (by with_unfolding_all rfl))
    (by with_unfolding_all rfl)).1 1 (by with_unfolding_all decide)

end SByteTrack
